import Mathlib

/-!
Shallow embedding of the windowed signal-analysis core of the B4F-FL1GHT
repository (files `src/utils/step_trace.py`, `src/utils/step_response.py`,
`src/utils/pid_analyzer_noise.py`, `src/utils/spectrogram_utils.py`, and the
step-response statistics of `src/ui/widgets.py`), together with theorems
settling the frozen claims about that core.

Python/numpy integer and rational arithmetic is embedded over `ℤ`/`ℚ`
(exact semantics); the FFT-based parts are embedded over `ℝ`/`ℂ`.
Python exceptions are modelled with `Except PyErr`; numpy's silent
non-finite values (NaN/inf from `0/0` etc.) are modelled as `Option ℝ`
with `none` standing for a non-finite float.
-/

namespace B4F

/-- Python exceptions that the embedded code can raise. -/
inductive PyErr : Type
  | indexError : PyErr
  | zeroDivision : PyErr
  | valueError : PyErr
  deriving DecidableEq, Repr

/-- Python `int(q)`: truncation of a rational toward zero. -/
def pyTrunc (q : ℚ) : ℤ :=
  if q < 0 then -⌊-q⌋ else ⌊q⌋

/-- numpy `np.round` on an exact rational: round half to even. -/
def npRoundQ (q : ℚ) : ℤ :=
  if q - ⌊q⌋ = 1/2 then 2 * round (q / 2) else round q

/-- `StepTrace.stepcalc` / `StepResponseCalculator._stepcalc`
(src/utils/step_trace.py:102-106, src/utils/step_response.py:25-28):
`tstep = time[1] - time[0]; freq = 1/tstep; return int(duration * freq)`. -/
def stepcalc (tstep duration : ℚ) : ℤ :=
  pyTrunc (duration * (1 / tstep))

/-- The frame length the spec's words prescribe: `round(duration * fs)`
(numpy half-to-even rounding), to be compared against `stepcalc`. -/
def specFrameLen (tstep duration : ℚ) : ℤ :=
  npRoundQ (duration * (1 / tstep))

/-- `StepTrace.winstacker` / `StepResponseCalculator.winstacker`
(src/utils/step_trace.py:108-117, src/utils/step_response.py:50-57):
`shift = int(flen/superpos); wins = int(tlen/shift) - superpos;`
slices `data[i*shift : i*shift+flen]` for `i in arange(wins)`.
`shift = 0` makes `tlen/shift` raise `ZeroDivisionError`. -/
def winstackerPy (data : List ℚ) (flen : ℤ) (superpos : ℕ) : Except PyErr (List (List ℚ)) :=
  let shift : ℤ := pyTrunc ((flen : ℚ) / (superpos : ℚ))
  if shift = 0 then Except.error PyErr.zeroDivision else
  let wins : ℤ := pyTrunc ((data.length : ℚ) / (shift : ℚ)) - superpos
  Except.ok ((List.range wins.toNat).map fun i => (data.drop (i * shift.toNat)).take flen.toNat)

/-- `StepResponseCalculator.winstacker` (src/utils/step_response.py:50-57) is
byte-for-byte the same loop as `StepTrace.winstacker` on a single series. -/
def srcWinstacker (data : List ℚ) (flen : ℤ) (superpos : ℕ) : Except PyErr (List (List ℚ)) :=
  winstackerPy data flen superpos

/-- The frame count asserted by the claim: `floor(N / shift) - S` with
`shift = flen / S` taken as exact division. -/
def claimWins (tlen flen superpos : ℕ) : ℤ :=
  ⌊(tlen : ℚ) / ((flen : ℚ) / (superpos : ℚ))⌋ - superpos

/-- The window loop of `process_gyro_data` (src/utils/pid_analyzer_noise.py:59-67):
`for i in range(wins): if i*shift + winlen > len(gyro): break; append slice`.
First argument of the recursion is the remaining iteration budget, second is
the current index `i`. -/
def noiseLoop (gyro throttle : List ℚ) (winlen shift : ℕ) :
    ℕ → ℕ → List (List ℚ) × List (List ℚ)
  | 0, _ => ([], [])
  | k + 1, i =>
    if i * shift + winlen ≤ gyro.length then
      let r := noiseLoop gyro throttle winlen shift k (i + 1)
      (((gyro.drop (i * shift)).take winlen) :: r.1,
       ((throttle.drop (i * shift)).take winlen) :: r.2)
    else ([], [])

/-- Number of window start positions that fully fit in a series of length `L`:
the closed form for where `noiseLoop`'s break fires. -/
def noiseFit (L winlen shift : ℕ) : ℕ :=
  if winlen ≤ L then (L - winlen) / shift + 1 else 0

/-- `process_gyro_data` (src/utils/pid_analyzer_noise.py:25-110), modelled up to
and including the windowing stage (the later spectrum/histogram stages are
embedded separately): `dt = time[1] - time[0]` (IndexError on fewer than two
samples), `winlen = int(0.3/dt)` (ZeroDivisionError on `dt = 0`),
`shift = int(winlen/16)`, `wins = int(tlen/shift) - 16` (ZeroDivisionError on
`shift = 0`), `wins <= 0` returns `None`, then the break-guarded window loop,
returning `None` when no window was produced. -/
def processGyroData (time gyro throttle : List ℚ) :
    Except PyErr (Option (List (List ℚ) × List (List ℚ))) :=
  match time with
  | [] => Except.error PyErr.indexError
  | [_] => Except.error PyErr.indexError
  | t0 :: t1 :: _ =>
    let dt := t1 - t0
    if dt = 0 then Except.error PyErr.zeroDivision else
    let winlen : ℤ := pyTrunc ((3 / 10) / dt)
    let shift : ℤ := pyTrunc ((winlen : ℚ) / 16)
    if shift = 0 then Except.error PyErr.zeroDivision else
    let wins : ℤ := pyTrunc ((time.length : ℚ) / (shift : ℚ)) - 16
    if wins ≤ 0 then Except.ok none else
    let r := noiseLoop gyro throttle winlen.toNat shift.toNat wins.toNat 0
    if r.1 = [] then Except.ok none else Except.ok (some r)

/-- `StepTrace.low_high_mask` (src/utils/step_trace.py:53-61), with the
sequenced in-place masking (`low[low <= t] = 1` then `low[low > t] = 0`),
`high = -low + 1`, and the zeroing `if high.sum() < 10: high *= 0`. -/
def lowHighMask (signal : List ℚ) (threshold : ℚ) : List ℚ × List ℚ :=
  let low := (signal.map fun x => if x ≤ threshold then (1 : ℚ) else x).map
    fun y => if threshold < y then (0 : ℚ) else y
  let high := low.map fun z => -z + 1
  let high := if high.sum < 10 then high.map (fun v => 0 * v) else high
  (low, high)

/-- `StepTrace.__init__` weight vector of the principal aggregate
(src/utils/step_trace.py:41-47): `low_mask * toolow_mask` with
`low_mask = low_high_mask(max_in, 500)[0]` and
`toolow_mask = low_high_mask(max_in, 20)[1]`. -/
def stRespLowWeights (maxIn : List ℚ) : List ℚ :=
  List.zipWith (· * ·) (lowHighMask maxIn 500).1 (lowHighMask maxIn 20).2

/-- `StepResponseCalculator.compute` masks (src/utils/step_response.py:116-119):
`toolow_mask = (max_in <= 20)`, `low_mask = (max_in <= threshold)`,
`high_mask = (max_in > threshold)` as float indicators. -/
def srcToolowMask (maxIn : List ℚ) : List ℚ :=
  maxIn.map fun x => if x ≤ 20 then (1 : ℚ) else 0

/-- `low_mask` of `StepResponseCalculator.compute` at threshold `t`. -/
def srcLowMask (maxIn : List ℚ) (t : ℚ) : List ℚ :=
  maxIn.map fun x => if x ≤ t then (1 : ℚ) else 0

/-- `StepResponseCalculator.compute` weight vector of `resp_low`
(src/utils/step_response.py:121): `low_mask * toolow_mask`. -/
def srcRespLowWeights (maxIn : List ℚ) : List ℚ :=
  List.zipWith (· * ·) (srcLowMask maxIn 500) (srcToolowMask maxIn)

/-- `StepResponseWidget.calculate_sample_stats` useful-window count
(src/ui/widgets.py:1553): `int(np.sum(trace.low_mask * trace.toolow_mask))`. -/
def usefulWindows (maxIn : List ℚ) : ℤ :=
  pyTrunc (stRespLowWeights maxIn).sum

/-- `sufficient_windows = useful_windows >= 100` (src/ui/widgets.py:1556). -/
def sufficientWindows (maxIn : List ℚ) : Bool :=
  100 ≤ usefulWindows maxIn

/-- `total_samples_processed = useful_windows * flen_samples if
useful_windows > 0 else 0` (src/ui/widgets.py:1559). -/
def totalSamplesProcessed (maxIn : List ℚ) (flen : ℤ) : ℤ :=
  if 0 < usefulWindows maxIn then usefulWindows maxIn * flen else 0

/-- The `sample_info` text chosen by `StepResponseWidget.update_step_response`
(src/ui/widgets.py:1859-1862): the useful-window statistics line when
`sufficient_windows`, else the insufficient-data flag. -/
def sampleInfoText (maxIn : List ℚ) (flen : ℤ) : String :=
  if sufficientWindows maxIn then
    "<b>Useful windows:</b> " ++ toString (usefulWindows maxIn)
      ++ " | <b>Samples:</b> " ++ toString (totalSamplesProcessed maxIn flen)
  else
    "<b>Insufficient for reliable analysis</b>"

/-- `np.max` of a nonempty list (the empty case never reaches it in the
embedded call sites, which raise first). -/
def qmaxList : List ℚ → ℚ
  | [] => 0
  | x :: xs => xs.foldl max x

/-- `np.min` of a nonempty list. -/
def qminList : List ℚ → ℚ
  | [] => 0
  | x :: xs => xs.foldl min x

/-- `np.diff`: consecutive differences. -/
def qdiffs (l : List ℚ) : List ℚ :=
  List.zipWith (fun a b => b - a) l l.tail

/-- The raw-unit heuristic of `calculate_spectrogram`
(src/utils/spectrogram_utils.py:22-26): values above 1e6 are microseconds,
above 1e3 milliseconds, else seconds. -/
def specScaleTime (time : List ℚ) : List ℚ :=
  if 1000000 < qmaxList time then time.map (· / 1000000)
  else if 1000 < qmaxList time then time.map (· / 1000) else time

/-- Time normalization of `calculate_spectrogram`
(src/utils/spectrogram_utils.py:22-27): microsecond/millisecond heuristic on
the raw maximum, then shift so the minimum is 0. -/
def specNormTime (time : List ℚ) : List ℚ :=
  (specScaleTime time).map (· - qminList (specScaleTime time))

/-- The samples retained by the clipping mask of `calculate_spectrogram`
(src/utils/spectrogram_utils.py:29-33): normalized times strictly inside
`(clip, T - clip)` where `T` is the normalized maximum. -/
def specRetained (time data : List ℚ) (clip : ℚ) : List ℚ × List ℚ :=
  let tn := specNormTime time
  let T := qmaxList tn
  let pairs := (tn.zip data).filter fun p => decide (clip < p.1 ∧ p.1 < T - clip)
  (pairs.map Prod.fst, pairs.map Prod.snd)

/-- The STFT segment-time axis that `scipy.signal.spectrogram` returns for `n`
samples at rate `fs` with `nperseg = min(1024, n)` and
`noverlap = int(0.5 * nperseg)`:
`arange(nperseg/2, n - nperseg/2 + 1, nperseg - noverlap) / fs`,
an axis of offsets RELATIVE to the start of the data passed in. -/
def spectrogramTimeAxis (n : ℕ) (fs : ℚ) : List ℚ :=
  let nperseg := min 1024 n
  let noverlap := nperseg / 2
  let hop := nperseg - noverlap
  let num := (⌈(((n : ℚ) - (nperseg : ℚ) / 2 + 1) - (nperseg : ℚ) / 2) / (hop : ℚ)⌉).toNat
  (List.range num).map fun k => ((nperseg : ℚ) / 2 + (k : ℚ) * (hop : ℚ)) / fs

/-- `calculate_spectrogram` (src/utils/spectrogram_utils.py:9-51), modelled up
to the time axis it returns (`'t'` of the result dict): raw-unit heuristic,
zero-basing, clip mask, `None` when the mask is empty, `None` when fewer than
2 samples survive, `dt` as the mean of consecutive differences, `None` when
the derived rate is non-positive, else the scipy STFT time axis. An empty
input raises (`np.max` of an empty array). -/
def calculateSpectrogram (time data : List ℚ) (clip : ℚ) : Except PyErr (Option (List ℚ)) :=
  if time = [] then Except.error PyErr.valueError else
  let tn := specNormTime time
  let T := qmaxList tn
  if ¬ tn.any (fun t => decide (clip < t ∧ t < T - clip)) then Except.ok none else
  let r := specRetained time data clip
  if r.2.length < 2 then Except.ok none else
  let d := qdiffs r.1
  let dt := d.sum / (d.length : ℚ)
  if dt ≤ 0 then Except.ok none else
  Except.ok (some (spectrogramTimeAxis r.2.length (1 / dt)))

/-- numpy uniform-bin histogram bin assignment over `nb` bins on `[lo, hi]`:
values outside the range are dropped, the right edge is inclusive in the
last bin. -/
def npBinIdx (lo hi : ℚ) (nb : ℕ) (v : ℚ) : Option ℕ :=
  if lo ≤ v ∧ v ≤ hi then some (min (⌊(v - lo) * (nb : ℚ) / (hi - lo)⌋.toNat) (nb - 1))
  else none

/-- `np.histogram(x, 101, [0, 100])` frame counts per throttle bin
(src/utils/pid_analyzer_noise.py:119). -/
def throtHist (x : List ℚ) (tb : ℕ) : ℕ :=
  x.countP fun v => decide (npBinIdx 0 100 101 v = some tb)

/-- The raw weighted 2D histogram of `create_2d_histogram`
(src/utils/pid_analyzer_noise.py:115-129): entry `(fb, tb)` accumulates
`weights[f, j]` over all frame/frequency pairs whose mean throttle `x[f]`
falls in throttle bin `tb` and whose frequency `y[j]` falls in frequency bin
`fb` (frequency range `[y[0], y[-1]]`, `nfb` bins). -/
def hist2dRaw (x y : List ℚ) (w : ℕ → ℕ → ℚ) (nfb : ℕ) (fb tb : ℕ) : ℚ :=
  ∑ f ∈ Finset.range x.length, ∑ j ∈ Finset.range y.length,
    if npBinIdx 0 100 101 (x.getD f 0) = some tb
        ∧ npBinIdx (y.headD 0) (y.getLastD 0) nfb (y.getD j 0) = some fb
    then w f j else 0

/-- The normalized histogram of `create_2d_histogram`
(src/utils/pid_analyzer_noise.py:130-136): each throttle column is divided by
its frame count when that count is nonzero, else left untouched. -/
def hist2dNorm (x y : List ℚ) (w : ℕ → ℕ → ℚ) (nfb : ℕ) (fb tb : ℕ) : ℚ :=
  if 0 < throtHist x tb then hist2dRaw x y w nfb fb tb / (throtHist x tb : ℚ)
  else hist2dRaw x y w nfb fb tb

end B4F

namespace B4F

noncomputable section

/-- A real vector indexed by `Fin n` (one numpy 1-D array row). -/
def Vec (n : ℕ) : Type := Fin n → ℝ

/-- `np.clip(v, lo, hi)`. -/
def clipR (lo hi v : ℝ) : ℝ := min (max v lo) hi

/-- Minimum entry of a vector (0 on the empty vector, which no call site
reaches: padded FFT rows always have at least 1024 entries). -/
def vmin {n : ℕ} (x : Vec n) : ℝ :=
  if h : 0 < n then Finset.univ.inf' ⟨⟨0, h⟩, Finset.mem_univ _⟩ x else 0

/-- Maximum entry of a vector. -/
def vmax {n : ℕ} (x : Vec n) : ℝ :=
  if h : 0 < n then Finset.univ.sup' ⟨⟨0, h⟩, Finset.mem_univ _⟩ x else 0

/-- `StepTrace.to_mask` (src/utils/step_trace.py:63-67): subtract the minimum,
then divide by the maximum when it is positive. -/
def toMask {n : ℕ} (x : Vec n) : Vec n :=
  let c : Vec n := fun i => x i - vmin x
  if 0 < vmax c then (fun i => c i / vmax c) else c

/-- `np.fft.fftfreq(N, d)`. -/
def fftfreq (N : ℕ) (d : ℝ) : Fin N → ℝ :=
  fun k => if (k : ℕ) < (N + 1) / 2 then (k : ℝ) / (N * d)
           else ((k : ℝ) - N) / (N * d)

/-- The padding length `1024 - n % 1024` used by both Wiener deconvolutions
and by `spectrum` (always between 1 and 1024; a row whose length is already a
multiple of 1024 still gains a full extra block). -/
def padLen (n : ℕ) : ℕ := 1024 - n % 1024

/-- Zero-pad a row on the right to length `n + padLen n`. -/
def padVec {n : ℕ} (x : Vec n) : Vec (n + padLen n) :=
  fun i => if h : (i : ℕ) < n then x ⟨i, h⟩ else 0

/-- The padded row as a complex vector (input to the FFT). -/
def cpadVec {n : ℕ} (x : Vec n) : Fin (n + padLen n) → ℂ :=
  fun i => ((padVec x i : ℝ) : ℂ)

/-- The discrete Fourier transform (`np.fft.fft`). -/
def dft {N : ℕ} (x : Fin N → ℂ) : Fin N → ℂ :=
  fun k => ∑ j : Fin N, x j * Complex.exp (-2 * Real.pi * Complex.I * (k : ℕ) * (j : ℕ) / N)

/-- The inverse discrete Fourier transform (`np.fft.ifft`). -/
def idft {N : ℕ} (X : Fin N → ℂ) : Fin N → ℂ :=
  fun t => (N : ℂ)⁻¹ * ∑ k : Fin N, X k * Complex.exp (2 * Real.pi * Complex.I * (k : ℕ) * (t : ℕ) / N)

/-- `np.round` on a real: round half to even. -/
def npRoundR (x : ℝ) : ℤ :=
  if Int.fract x = 1/2 then 2 * round (x / 2) else round x

/-- Unnormalized Gaussian tap `exp(-d^2 / (2 sigma^2))` of
`scipy.ndimage.gaussian_filter1d`. -/
def gaussWeight (sigma : ℕ) (d : ℤ) : ℝ :=
  Real.exp (-(d : ℝ) ^ 2 / (2 * (sigma : ℝ) ^ 2))

/-- Kernel radius `int(4.0 * sigma + 0.5)` of `gaussian_filter1d` for an
integer `sigma`. -/
def gaussRadius (sigma : ℕ) : ℕ := 4 * sigma

/-- Normalizing constant of the truncated Gaussian kernel. -/
def gaussNorm (sigma : ℕ) : ℝ :=
  ∑ d ∈ Finset.Icc (-(gaussRadius sigma : ℤ)) (gaussRadius sigma : ℤ), gaussWeight sigma d

/-- scipy `mode='reflect'` index map `(d c b a | a b c d | d c b a)`:
reduce modulo `2n` and mirror the upper half. -/
def reflectNat (n : ℕ) (z : ℤ) : ℕ :=
  let p := (z.emod (2 * n)).toNat
  if p < n then p else 2 * n - 1 - p

/-- Extension of a row by reflection (scipy boundary mode `reflect`). -/
def extendReflect {n : ℕ} (x : Vec n) : ℤ → ℝ :=
  fun z =>
    if h : reflectNat n z < n then x ⟨reflectNat n z, h⟩ else 0

/-- Extension of a row by zeros (scipy boundary mode `constant`, `cval=0`). -/
def extendZero {n : ℕ} (x : Vec n) : ℤ → ℝ :=
  fun z => if h : 0 ≤ z ∧ z < n then x ⟨z.toNat, by omega⟩ else 0

/-- `gaussian_filter1d(x, sigma)` with the default `reflect` boundary. -/
def gaussFilterReflect {n : ℕ} (sigma : ℕ) (x : Vec n) : Vec n :=
  fun i => (gaussNorm sigma)⁻¹ *
    ∑ d ∈ Finset.Icc (-(gaussRadius sigma : ℤ)) (gaussRadius sigma : ℤ),
      gaussWeight sigma d * extendReflect x ((i : ℕ) + d)

/-- `gaussian_filter1d(x, sigma, mode='constant')`. -/
def gaussFilterZero {n : ℕ} (sigma : ℕ) (x : Vec n) : Vec n :=
  fun i => (gaussNorm sigma)⁻¹ *
    ∑ d ∈ Finset.Icc (-(gaussRadius sigma : ℤ)) (gaussRadius sigma : ℤ),
      gaussWeight sigma d * extendZero x ((i : ℕ) + d)

/-- The clipped `|fftfreq|` array both Wiener deconvolutions start from:
`np.clip(np.abs(freq), cutfreq - 1e-9, cutfreq)`
(src/utils/step_trace.py:126, src/utils/step_response.py:66). -/
def clippedFreq (P : ℕ) (d c : ℝ) : Vec P :=
  fun k => clipR (c - 1e-9) c |fftfreq P d k|

/-- `StepTrace`'s base profile `sn = to_mask(clip(...))`
(src/utils/step_trace.py:126). -/
def stS0 (P : ℕ) (d c : ℝ) : Vec P := toMask (clippedFreq P d c)

/-- `filt_width = max(1, int(np.round(sum(1 - sn) / 6)))`
(src/utils/step_trace.py:127-128). -/
def stFiltWidth (P : ℕ) (d c : ℝ) : ℕ :=
  max 1 (npRoundR ((∑ k, (1 - stS0 P d c k)) / 6)).toNat

/-- The final regularization profile of `StepTrace.wiener_deconvolution`
(src/utils/step_trace.py:126-130):
`sn = to_mask(gaussian_filter1d(sn, filt_width)); sn = 10 * (-sn + 1 + 1e-9)`. -/
def snStepTrace (P : ℕ) (d c : ℝ) : Vec P :=
  fun k => 10 * (-(toMask (gaussFilterReflect (stFiltWidth P d c) (stS0 P d c)) k) + 1 + 1e-9)

/-- `StepResponseCalculator`'s base profile: the bare clipped frequencies,
WITHOUT the `to_mask` normalization (src/utils/step_response.py:66). -/
def srcS0 (P : ℕ) (d c : ℝ) : Vec P := clippedFreq P d c

/-- `filt_width` of `StepResponseCalculator.wiener_deconvolution`
(src/utils/step_response.py:67-68). -/
def srcFiltWidth (P : ℕ) (d c : ℝ) : ℕ :=
  max 1 (npRoundR ((∑ k, (1 - srcS0 P d c k)) / 6)).toNat

/-- The final regularization profile of
`StepResponseCalculator.wiener_deconvolution`
(src/utils/step_response.py:66-70), again without `to_mask`. -/
def snSRC (P : ℕ) (d c : ℝ) : Vec P :=
  fun k => 10 * (-(gaussFilterReflect (srcFiltWidth P d c) (srcS0 P d c) k) + 1 + 1e-9)

/-- The profile the spec's words describe: a hard low-pass indicator that is
1 below the cutoff and 0 above it (to be compared with the code's `stS0`). -/
def specLowpassIndicator (P : ℕ) (d c : ℝ) : Vec P :=
  fun k => if |fftfreq P d k| < c then 1 else 0

/-- The frequency-domain Wiener quotient `G * conj(H) / (H * conj(H) + 1/sn)`
(src/utils/step_trace.py:131-132, src/utils/step_response.py:71-72). -/
def wienerKernel {P : ℕ} (sn : Vec P) (H G : Fin P → ℂ) : Fin P → ℂ :=
  fun k => G k * (starRingEnd ℂ) (H k) / (H k * (starRingEnd ℂ) (H k) + 1 / (sn k : ℂ))

/-- One frame of Wiener deconvolution with a given regularization profile:
zero-pad, FFT both rows, apply the quotient, inverse FFT, take real parts. -/
def wienerRow {n : ℕ} (sn : Vec (n + padLen n)) (x y : Vec n) : Vec (n + padLen n) :=
  fun t => (idft (wienerKernel sn (dft (cpadVec x)) (dft (cpadVec y))) t).re

/-- `StepTrace.wiener_deconvolution` (src/utils/step_trace.py:119-133) on a
whole frame stack: the profile `sn` is computed once from the padded length
and shared by every row. -/
def stWienerDeconvolution {m n : ℕ} (d c : ℝ) (inp outp : Fin m → Vec n) :
    Fin m → Vec (n + padLen n) :=
  let P := n + padLen n
  let H : Fin m → Fin P → ℂ := fun f => dft (cpadVec (inp f))
  let G : Fin m → Fin P → ℂ := fun f => dft (cpadVec (outp f))
  let sn := snStepTrace P d c
  fun f t => (idft (fun k => G f k * (starRingEnd ℂ) (H f k)
    / (H f k * (starRingEnd ℂ) (H f k) + 1 / (sn k : ℂ))) t).re

/-- `StepResponseCalculator.wiener_deconvolution`
(src/utils/step_response.py:59-73): identical to the `StepTrace` version
except for its un-normalized `sn` profile. -/
def srcWienerDeconvolution {m n : ℕ} (d c : ℝ) (inp outp : Fin m → Vec n) :
    Fin m → Vec (n + padLen n) :=
  let P := n + padLen n
  let H : Fin m → Fin P → ℂ := fun f => dft (cpadVec (inp f))
  let G : Fin m → Fin P → ℂ := fun f => dft (cpadVec (outp f))
  let sn := snSRC P d c
  fun f t => (idft (fun k => G f k * (starRingEnd ℂ) (H f k)
    / (H f k * (starRingEnd ℂ) (H f k) + 1 / (sn k : ℂ))) t).re

/-- `deconvolved[:, :rlen].cumsum(axis=1)`: truncate every row to its first
`rlen` entries and integrate with a running sum
(src/utils/step_trace.py:139-140; only `StepTrace` performs this step). -/
def truncCumsum {m n : ℕ} (rlen : ℕ) (D : Fin m → Vec n) : Fin m → Fin rlen → ℝ :=
  fun f t => ∑ u ∈ Finset.range ((t : ℕ) + 1), if h : u < n then D f ⟨u, h⟩ else 0

/-- `deconvolved[:, :rlen]`: truncate every row to its first `rlen` entries
with NO integration (src/utils/step_response.py:114 — `compute` feeds this
slice directly to `weighted_mode_avr` and never applies a cumulative sum). -/
def truncRows {m n : ℕ} (rlen : ℕ) (D : Fin m → Vec n) : Fin m → Fin rlen → ℝ :=
  fun f t => if h : (t : ℕ) < n then D f ⟨t, h⟩ else 0

/-- `StepTrace.stack_response`, response part (src/utils/step_trace.py:135-140):
taper both stacks with the window, deconvolve, truncate to `rlen`, cumsum. -/
def stStackDelta {m n : ℕ} (d c : ℝ) (rlen : ℕ) (inp gyro : Fin m → Vec n)
    (window : Vec n) : Fin m → Fin rlen → ℝ :=
  truncCumsum rlen (stWienerDeconvolution d c
    (fun f j => inp f j * window j) (fun f j => gyro f j * window j))

/-- The per-frame response curves produced by `StepResponseCalculator.compute`
(src/utils/step_response.py:109-114): taper both stacks with the window,
deconvolve, truncate to `rlen` — and stop there: `compute` passes
`deconvolved_sm` straight to `weighted_mode_avr` with no cumulative sum. -/
def srcStackDelta {m n : ℕ} (d c : ℝ) (rlen : ℕ) (inp gyro : Fin m → Vec n)
    (window : Vec n) : Fin m → Fin rlen → ℝ :=
  truncRows rlen (srcWienerDeconvolution d c
    (fun f j => inp f j * window j) (fun f j => gyro f j * window j))

/-- The per-frame step-response formula in the spec's words (with the code's
truncation length and padding): the real part of
`IFFT(G * conj(H) / (H * conj(H) + 1/sn))` of the zero-padded tapered frame
pair, truncated to the first `rlen` samples and integrated with a cumulative
sum. -/
def specFrameStepResponse {n : ℕ} (sn : Vec (n + padLen n)) (x y : Vec n)
    (rlen : ℕ) : Fin rlen → ℝ :=
  fun t => ∑ u ∈ Finset.range ((t : ℕ) + 1),
    if h : u < n + padLen n then wienerRow sn x y ⟨u, h⟩ else 0

/-- `np.histogram`-style bin assignment over the reals. -/
def npBinIdxR (lo hi : ℝ) (nb : ℕ) (v : ℝ) : Option ℕ :=
  if lo ≤ v ∧ v ≤ hi then some (min (⌊(v - lo) * (nb : ℝ) / (hi - lo)⌋.toNat) (nb - 1))
  else none

/-- `np.linspace lo hi n`. -/
def linspaceR (lo hi : ℝ) (n : ℕ) : Fin n → ℝ :=
  fun v => if n ≤ 1 then lo else lo + (hi - lo) * (v : ℕ) / ((n : ℝ) - 1)

/-- The 2D histogram built inside `weighted_mode_avr`
(src/utils/step_trace.py:151-155, src/utils/step_response.py:79-83): rows are
value bins (after the transpose), columns are time bins over
`[time_resp[0], time_resp[-1]]`; every frame `f` contributes its weight at
the pair (time bin of `time_resp[j]`, value bin of `values[f, j]`). -/
def wmaHist {m nT : ℕ} (timeResp : Fin nT → ℝ) (values : Fin m → Fin nT → ℝ)
    (weights : Fin m → ℝ) (lo hi : ℝ) (nV : ℕ) : Fin nV → Fin nT → ℝ :=
  let tLo := if h : 0 < nT then timeResp ⟨0, h⟩ else 0
  let tHi := if h : 0 < nT then timeResp ⟨nT - 1, by omega⟩ else 0
  fun v c => ∑ f : Fin m, ∑ j : Fin nT,
    if npBinIdxR tLo tHi nT (timeResp j) = some (c : ℕ)
        ∧ npBinIdxR lo hi nV (values f j) = some (v : ℕ)
    then weights f else 0

/-- IEEE-flavoured division on the finite-or-not model: `none` stands for a
non-finite float (NaN or infinity), produced by dividing by zero. -/
def fdiv (a b : ℝ) : Option ℝ := if b = 0 then none else some (a / b)

/-- Sum of a family of finite-or-not floats: non-finite as soon as one
summand is. -/
def oSum {n : ℕ} (g : Fin n → Option ℝ) : Option ℝ :=
  if ∀ i, (g i).isSome then some (∑ i, (g i).getD 0) else none

/-- The `std` curve of `weighted_mode_avr`
(src/utils/step_trace.py:164-166): threshold the raw histogram at `0.5`,
replace surviving entries by `0.5 / (vertbins / (vertrange span))`, and sum
each time column. -/
def wmaStd {m nT : ℕ} (timeResp : Fin nT → ℝ) (values : Fin m → Fin nT → ℝ)
    (weights : Fin m → ℝ) (lo hi : ℝ) (nV : ℕ) : Fin nT → ℝ :=
  fun c => ∑ v : Fin nV,
    if wmaHist timeResp values weights lo hi nV v c ≤ 1/2 then 0
    else (1/2) / ((nV : ℝ) / (hi - lo))

/-- `gaussian_filter1d(hist2d, 7, axis=0, mode='constant')`
(src/utils/step_trace.py:157): smooth every time column along the value
axis. -/
def wmaSm {m nT : ℕ} (timeResp : Fin nT → ℝ) (values : Fin m → Fin nT → ℝ)
    (weights : Fin m → ℝ) (lo hi : ℝ) (nV : ℕ) : Fin nV → Fin nT → ℝ :=
  fun v c => gaussFilterZero 7 (fun u => wmaHist timeResp values weights lo hi nV u c) v

/-- `np.max(hist2d_sm, 0)` (src/utils/step_trace.py:158): the per-time-column
maximum of the smoothed histogram. -/
def wmaColMax {m nT : ℕ} (timeResp : Fin nT → ℝ) (values : Fin m → Fin nT → ℝ)
    (weights : Fin m → ℝ) (lo hi : ℝ) (nV : ℕ) : Fin nT → ℝ :=
  fun c => vmax fun v => wmaSm timeResp values weights lo hi nV v c

/-- The squared column-normalized weights `hist2d_sm * hist2d_sm` after
`hist2d_sm /= np.max(hist2d_sm, 0)` (src/utils/step_trace.py:158-160); a
zero column maximum makes the division `0/0`, i.e. non-finite. -/
def wmaW {m nT : ℕ} (timeResp : Fin nT → ℝ) (values : Fin m → Fin nT → ℝ)
    (weights : Fin m → ℝ) (lo hi : ℝ) (nV : ℕ) : Fin nV → Fin nT → Option ℝ :=
  fun v c => (fdiv (wmaSm timeResp values weights lo hi nV v c)
    (wmaColMax timeResp values weights lo hi nV c)).map fun a => a * a

/-- The per-column weight sums checked by `np.average`
(src/utils/step_trace.py:160). -/
def wmaScl {m nT : ℕ} (timeResp : Fin nT → ℝ) (values : Fin m → Fin nT → ℝ)
    (weights : Fin m → ℝ) (lo hi : ℝ) (nV : ℕ) : Fin nT → Option ℝ :=
  fun c => oSum fun v => wmaW timeResp values weights lo hi nV v c

/-- The weighted average `np.average(pixelpos, 0, weights=hist2d_sm^2)`
(src/utils/step_trace.py:159-160), per time column. -/
def wmaAvr {m nT : ℕ} (timeResp : Fin nT → ℝ) (values : Fin m → Fin nT → ℝ)
    (weights : Fin m → ℝ) (lo hi : ℝ) (nV : ℕ) : Fin nT → Option ℝ :=
  fun c => (oSum fun v => (wmaW timeResp values weights lo hi nV v c).map
      fun a => linspaceR lo hi nV v * a).bind
    fun num => (wmaScl timeResp values weights lo hi nV c).map fun s => num / s

open Classical in
/-- `weighted_mode_avr` (src/utils/step_trace.py:147-167, and the identical
src/utils/step_response.py:75-95): build the weighted 2D histogram; if its
total is nonzero, Gaussian-smooth each time column along the value axis
(`sigma = 7`, `mode='constant'`), divide each column by its maximum
(`0/0` giving NaN, modelled as `none`), and average the value grid with the
squared normalized column as weights (`np.average` raises
`ZeroDivisionError` when a weight column sums to exactly zero); if the total
is zero, the average is the all-zero curve. The second component is the
`std` curve obtained by thresholding the raw histogram at `0.5`. -/
def weightedModeAvr {m nT : ℕ} (timeResp : Fin nT → ℝ) (values : Fin m → Fin nT → ℝ)
    (weights : Fin m → ℝ) (lo hi : ℝ) (nV : ℕ) :
    Except PyErr ((Fin nT → Option ℝ) × (Fin nT → ℝ)) :=
  if (∑ v : Fin nV, ∑ c : Fin nT, wmaHist timeResp values weights lo hi nV v c) = 0 then
    Except.ok (fun _ => some 0, wmaStd timeResp values weights lo hi nV)
  else if ∃ c, wmaScl timeResp values weights lo hi nV c = some 0 then
    Except.error PyErr.zeroDivision
  else Except.ok (wmaAvr timeResp values weights lo hi nV,
    wmaStd timeResp values weights lo hi nV)

end

/-! ### Supporting lemmas -/

theorem pyTrunc_of_nonneg {q : ℚ} (h : 0 ≤ q) : pyTrunc q = ⌊q⌋ := by
  unfold pyTrunc
  rw [if_neg (not_lt.mpr h)]

theorem noiseLoop_length (gyro throttle : List ℚ) (winlen shiftN : ℕ) (hs : 0 < shiftN) :
    ∀ k i, (noiseLoop gyro throttle winlen shiftN k i).1.length
      = min k (noiseFit gyro.length winlen shiftN - i) := by
  intro k
  induction k with
  | zero => intro i; simp [noiseLoop]
  | succ k ih =>
    intro i
    rw [noiseLoop]
    by_cases h : i * shiftN + winlen ≤ gyro.length
    · have hwl : winlen ≤ gyro.length := le_trans (Nat.le_add_left _ _) h
      have hdiv : i ≤ (gyro.length - winlen) / shiftN :=
        (Nat.le_div_iff_mul_le hs).mpr (by omega)
      have hfit : i < noiseFit gyro.length winlen shiftN := by
        unfold noiseFit; rw [if_pos hwl]; omega
      simp only [if_pos h, List.length_cons, ih (i + 1)]
      omega
    · have hfit : noiseFit gyro.length winlen shiftN ≤ i := by
        unfold noiseFit
        by_cases hwl : winlen ≤ gyro.length
        · rw [if_pos hwl]
          have : (gyro.length - winlen) / shiftN < i :=
            (Nat.div_lt_iff_lt_mul hs).mpr (by omega)
          omega
        · rw [if_neg hwl]; omega
      simp only [if_neg h, List.length_nil]
      omega

theorem qmaxList_singleton (x : ℚ) : qmaxList [x] = x := rfl

theorem qminList_singleton (x : ℚ) : qminList [x] = x := rfl

theorem specScaleTime_singleton (x : ℚ) : ∃ y, specScaleTime [x] = [y] := by
  unfold specScaleTime
  rw [qmaxList_singleton]
  by_cases hA : (1000000 : ℚ) < x
  · exact ⟨x / 1000000, by rw [if_pos hA]; rfl⟩
  · rw [if_neg hA]
    by_cases hB : (1000 : ℚ) < x
    · exact ⟨x / 1000, by rw [if_pos hB]; rfl⟩
    · exact ⟨x, by rw [if_neg hB]⟩

theorem specNormTime_singleton (x : ℚ) : specNormTime [x] = [0] := by
  unfold specNormTime
  obtain ⟨y, hy⟩ := specScaleTime_singleton x
  rw [hy, qminList_singleton]
  simp

theorem le_foldl_max (l : List ℚ) (b : ℚ) : b ≤ l.foldl max b := by
  induction l generalizing b with
  | nil => simp
  | cons a t ih => exact le_trans (le_max_left b a) (ih (max b a))

theorem mem_le_foldl_max (l : List ℚ) (b : ℚ) : ∀ x ∈ l, x ≤ l.foldl max b := by
  induction l generalizing b with
  | nil => simp
  | cons a t ih =>
    intro x hx
    rcases List.mem_cons.mp hx with h | h
    · subst h
      exact le_trans (le_max_right b x) (le_foldl_max t (max b x))
    · exact ih (max b a) x h

theorem mem_le_qmaxList {l : List ℚ} {x : ℚ} (hx : x ∈ l) : x ≤ qmaxList l := by
  cases l with
  | nil => cases hx
  | cons a t =>
    unfold qmaxList
    rcases List.mem_cons.mp hx with h | h
    · subst h; exact le_foldl_max t x
    · exact mem_le_foldl_max t a x h

theorem sum_indicator_eq_countP (l : List ℚ) (p : ℚ → Prop) [DecidablePred p] :
    (l.map fun x => if p x then (1 : ℚ) else 0).sum = l.countP fun x => decide (p x) := by
  induction l with
  | nil => simp
  | cons a t ih =>
    simp only [List.map_cons, List.sum_cons, List.countP_cons, ih]
    by_cases h : p a
    · simp only [if_pos h, h]
      simp only [decide_eq_true_eq]
      rw [if_pos trivial]
      push_cast
      ring
    · simp [h]

theorem lowHighMask_fst (s : List ℚ) (t : ℚ) (ht : 1 ≤ t) :
    (lowHighMask s t).1 = s.map fun x => if x ≤ t then (1 : ℚ) else 0 := by
  unfold lowHighMask
  dsimp only
  rw [List.map_map]
  refine List.map_congr_left fun x _ => ?_
  by_cases h : x ≤ t
  · simp only [Function.comp, if_pos h, if_neg (not_lt.mpr ht)]
  · simp only [Function.comp, if_neg h, if_pos (not_le.mp h)]

theorem lowHighMask_high_raw (s : List ℚ) (t : ℚ) (ht : 1 ≤ t) :
    ((s.map fun x => if x ≤ t then (1 : ℚ) else x).map fun y => if t < y then (0 : ℚ) else y).map
        (fun z => -z + 1)
      = s.map fun x => if t < x then (1 : ℚ) else 0 := by
  rw [List.map_map, List.map_map]
  refine List.map_congr_left fun x _ => ?_
  by_cases h : x ≤ t
  · simp only [Function.comp, if_pos h, if_neg (not_lt.mpr ht), if_neg (not_lt.mpr h)]
    ring
  · simp only [Function.comp, if_neg h, if_pos (not_le.mp h)]
    ring

theorem lowHighMask_snd_of_big (s : List ℚ) (t : ℚ) (ht : 1 ≤ t)
    (h : 10 ≤ s.countP fun x => decide (t < x)) :
    (lowHighMask s t).2 = s.map fun x => if t < x then (1 : ℚ) else 0 := by
  unfold lowHighMask
  dsimp only
  rw [lowHighMask_high_raw s t ht, sum_indicator_eq_countP s (fun x => t < x)]
  rw [if_neg (not_lt.mpr (by exact_mod_cast h))]

theorem lowHighMask_snd_of_small (s : List ℚ) (t : ℚ) (ht : 1 ≤ t)
    (h : (s.countP fun x => decide (t < x)) < 10) :
    (lowHighMask s t).2 = List.replicate s.length (0 : ℚ) := by
  unfold lowHighMask
  dsimp only
  rw [lowHighMask_high_raw s t ht, sum_indicator_eq_countP s (fun x => t < x)]
  rw [if_pos (by exact_mod_cast h)]
  rw [List.map_map]
  have hc : ((fun v : ℚ => 0 * v) ∘ fun x => if t < x then (1 : ℚ) else 0) = fun _ => (0 : ℚ) := by
    funext x; simp
  rw [hc]
  exact List.map_const s 0

theorem zipWith_indicator_prod (l : List ℚ) (p q : ℚ → Prop) [DecidablePred p] [DecidablePred q] :
    List.zipWith (· * ·) (l.map fun x => if p x then (1 : ℚ) else 0)
        (l.map fun x => if q x then (1 : ℚ) else 0)
      = l.map fun x => if p x ∧ q x then (1 : ℚ) else 0 := by
  induction l with
  | nil => simp
  | cons a tl ih =>
    simp only [List.map_cons, List.zipWith_cons_cons, ih]
    by_cases hp : p a <;> by_cases hq : q a <;> simp [hp, hq]

/-! ### Claim theorems -/

/-- Claim C1 counterexample: the truncation length `rlen` computed by
`stepcalc` is `int(0.5 * fs)` (truncation), not `round(0.5 * fs)` as the
claim states; at `fs = 999 Hz` the code truncates to 499 samples while the
claimed formula gives 500. -/
theorem C1_counterexample :
    stepcalc (1/999) (1/2) = 499 ∧ specFrameLen (1/999) (1/2) = 500 ∧
      stepcalc (1/999) (1/2) ≠ specFrameLen (1/999) (1/2) := by
  refine ⟨by with_unfolding_all decide, by with_unfolding_all decide,
    by with_unfolding_all decide⟩

/-- Claim C3 counterexample: at `N = 10`, `frame_seconds * fs = 100`,
`S = 16` the windower emits 0 frames while the claimed law
`floor(N / shift) - S` with `shift = flen / S` gives `-15`; the emitted
count is not `floor(N / shift) - S` in boundary cases. -/
theorem C3_counterexample :
    winstackerPy (List.replicate 10 (0 : ℚ)) 100 16 = Except.ok [] ∧
      claimWins 10 100 16 = -15 ∧
      (([] : List (List ℚ)).length : ℤ) ≠ claimWins 10 100 16 := by
  refine ⟨by with_unfolding_all rfl, by with_unfolding_all decide,
    by with_unfolding_all decide⟩

/-- Claim C2 counterexample: in `StepResponseCalculator.compute` the
`resp_low` weight vector on `max_in = [10, 100]` is `[1, 0]`: the frame with
`max_in = 100 ∈ (20, 500]` (which the claim says is exactly the contributing
set) gets weight 0, while the frame with `max_in = 10 ≤ 20` (which the claim
says is rejected) gets weight 1. -/
theorem C2_counterexample :
    srcRespLowWeights [10, 100] = [1, 0] ∧ (20 : ℚ) < 100 ∧ (100 : ℚ) ≤ 500 ∧
      (10 : ℚ) ≤ 20 ∧
      ¬ ((srcRespLowWeights [10, 100]).getD 1 0 ≠ 0
        ↔ (20 < ([10, 100] : List ℚ).getD 1 0 ∧ ([10, 100] : List ℚ).getD 1 0 ≤ 500)) := by
  refine ⟨by with_unfolding_all decide, by norm_num, by norm_num, by norm_num,
    by with_unfolding_all decide⟩

/-- Claim C10 counterexample: on an input with fewer than 2 samples the
noise analyzer `process_gyro_data` raises `IndexError` (`time[1]` on a
1-element array) instead of returning an explicit "no result". -/
theorem C10_counterexample :
    processGyroData [0] [] [] = Except.error PyErr.indexError := rfl

/-- Claim C3 as amended: provided the derived hop `shift = int(flen/S)` is
positive, both step-response windowers (`StepTrace.winstacker` and
`StepResponseCalculator.winstacker`) emit exactly
`max(0, floor(N/shift) - S)` frames (with `flen = int(f*fs)`, truncation not
rounding, and the hop itself truncated); the noise-analyzer windower
additionally stops early when a window would overrun the series, emitting
`min(max(0, wins), #starts that fully fit)` frames. -/
theorem C3_theorem (data gyro throttle : List ℚ) (flen : ℤ) (S : ℕ)
    (winlen shiftN wins : ℕ)
    (hst : 0 < pyTrunc ((flen : ℚ) / (S : ℚ)))
    (hsn : 0 < shiftN) :
    (∃ l, winstackerPy data flen S = Except.ok l ∧
      (l.length : ℤ) = max 0 (⌊(data.length : ℚ) / (pyTrunc ((flen : ℚ) / (S : ℚ)) : ℚ)⌋ - S)) ∧
    (∃ l, srcWinstacker data flen S = Except.ok l ∧
      (l.length : ℤ) = max 0 (⌊(data.length : ℚ) / (pyTrunc ((flen : ℚ) / (S : ℚ)) : ℚ)⌋ - S)) ∧
    (noiseLoop gyro throttle winlen shiftN wins 0).1.length
      = min wins (noiseFit gyro.length winlen shiftN) := by
  have hdiv : (0 : ℚ) ≤ (data.length : ℚ) / (pyTrunc ((flen : ℚ) / (S : ℚ)) : ℚ) := by
    apply div_nonneg (by positivity)
    exact_mod_cast le_of_lt hst
  have heval : winstackerPy data flen S
      = Except.ok ((List.range (pyTrunc ((data.length : ℚ)
          / (pyTrunc ((flen : ℚ) / (S : ℚ)) : ℚ)) - S).toNat).map
            fun i => (data.drop (i * (pyTrunc ((flen : ℚ) / (S : ℚ))).toNat)).take flen.toNat) := by
    simp only [winstackerPy]
    rw [if_neg (ne_of_gt hst)]
  have hmain : ∃ l, winstackerPy data flen S = Except.ok l ∧
      (l.length : ℤ) = max 0 (⌊(data.length : ℚ) / (pyTrunc ((flen : ℚ) / (S : ℚ)) : ℚ)⌋ - S) := by
    refine ⟨_, heval, ?_⟩
    simp only [List.length_map, List.length_range]
    rw [pyTrunc_of_nonneg hdiv, Int.toNat_eq_max, max_comm]
  refine ⟨hmain, hmain, ?_⟩
  have h := noiseLoop_length gyro throttle winlen shiftN hsn wins 0
  simpa using h

/-- Claim C2 as amended: in both implementations `low_mask` is the indicator
of `max_in ≤ 500`; in `StepResponseCalculator` the variable `toolow_mask` is
the indicator of `max_in ≤ 20` but the `resp_low` weight vector
`low_mask * toolow_mask` is then the indicator of `max_in ≤ 20` — the
contributing frames are exactly the ones the spec intends to reject; in
`StepTrace` the variable `toolow_mask` is the NEGATED mask (indicator of
`max_in > 20`), and the principal-aggregate weight vector is the indicator
of `max_in ∈ (20, 500]` provided at least 10 frames have `max_in > 20`. -/
theorem C2_theorem (maxIn : List ℚ) :
    (lowHighMask maxIn 500).1 = (maxIn.map fun x => if x ≤ 500 then (1 : ℚ) else 0) ∧
    (lowHighMask maxIn 500).1 = srcLowMask maxIn 500 ∧
    srcRespLowWeights maxIn = (maxIn.map fun x => if x ≤ 20 then (1 : ℚ) else 0) ∧
    (10 ≤ (maxIn.countP fun x => decide ((20 : ℚ) < x)) →
      stRespLowWeights maxIn
        = (maxIn.map fun x => if 20 < x ∧ x ≤ 500 then (1 : ℚ) else 0)) := by
  have h1 := lowHighMask_fst maxIn 500 (by norm_num)
  refine ⟨h1, ?_, ?_, ?_⟩
  · rw [h1]; rfl
  · unfold srcRespLowWeights srcLowMask srcToolowMask
    rw [zipWith_indicator_prod maxIn (fun x => x ≤ 500) (fun x => x ≤ 20)]
    refine List.map_congr_left fun x _ => ?_
    by_cases h : x ≤ 20
    · rw [if_pos ⟨by linarith, h⟩, if_pos h]
    · rw [if_neg (fun hc => h hc.2), if_neg h]
  · intro hcount
    unfold stRespLowWeights
    rw [h1, lowHighMask_snd_of_big maxIn 20 (by norm_num) hcount]
    rw [zipWith_indicator_prod maxIn (fun x => x ≤ 500) (fun x => 20 < x)]
    refine List.map_congr_left fun x _ => ?_
    by_cases h : 20 < x ∧ x ≤ 500
    · rw [if_pos ⟨h.2, h.1⟩, if_pos h]
    · rcases not_and_or.mp h with h' | h'
      · rw [if_neg (fun hc => h' hc.2), if_neg h]
      · rw [if_neg (fun hc => h' hc.1), if_neg h]

/-- Claim C2 witness: the amended statement evaluated on a concrete
`max_in` vector with twelve frames above 20. -/
theorem C2_witness :
    (lowHighMask (List.replicate 12 (100 : ℚ) ++ [10, 600]) 500).1
        = ((List.replicate 12 (100 : ℚ) ++ [10, 600]).map fun x => if x ≤ 500 then (1 : ℚ) else 0) ∧
      stRespLowWeights (List.replicate 12 (100 : ℚ) ++ [10, 600])
        = ((List.replicate 12 (100 : ℚ) ++ [10, 600]).map
            fun x => if 20 < x ∧ x ≤ 500 then (1 : ℚ) else 0) :=
  ⟨(C2_theorem (List.replicate 12 (100 : ℚ) ++ [10, 600])).1,
   (C2_theorem (List.replicate 12 (100 : ℚ) ++ [10, 600])).2.2.2 (by decide)⟩

/-- Claim C3 witness: the amended frame-count law evaluated at a concrete
series of 640 samples with `flen = 100`, `S = 16` (and a concrete noise
windower instance). -/
theorem C3_witness :
    ((∃ l, winstackerPy (List.replicate 640 (0 : ℚ)) 100 16 = Except.ok l ∧
        (l.length : ℤ)
          = max 0 (⌊((List.replicate 640 (0 : ℚ)).length : ℚ)
              / (pyTrunc ((100 : ℚ) / (16 : ℚ)) : ℚ)⌋ - 16)) ∧
      (∃ l, srcWinstacker (List.replicate 640 (0 : ℚ)) 100 16 = Except.ok l ∧
        (l.length : ℤ)
          = max 0 (⌊((List.replicate 640 (0 : ℚ)).length : ℚ)
              / (pyTrunc ((100 : ℚ) / (16 : ℚ)) : ℚ)⌋ - 16)) ∧
      (noiseLoop (List.replicate 100 (0 : ℚ)) (List.replicate 100 (0 : ℚ)) 31 1 84 0).1.length
        = min 84 (noiseFit (List.replicate 100 (0 : ℚ)).length 31 1)) :=
  C3_theorem (List.replicate 640 (0 : ℚ)) (List.replicate 100 (0 : ℚ))
    (List.replicate 100 (0 : ℚ)) 100 16 31 1 84 (by with_unfolding_all decide) (by decide)

/-- Claim C6: the presented step-response result shows the
insufficient-data flag exactly when the useful-window count
`int(sum(low_mask * toolow_mask))` is below 100; otherwise it is presented
with its useful-window statistics line. -/
theorem C6_theorem (maxIn : List ℚ) (flen : ℤ) :
    sampleInfoText maxIn flen = "<b>Insufficient for reliable analysis</b>"
      ↔ usefulWindows maxIn < 100 := by
  unfold sampleInfoText sufficientWindows
  by_cases h : 100 ≤ usefulWindows maxIn
  · rw [if_pos (by simpa using h)]
    constructor
    · intro hs
      have hd := congrArg String.data hs
      simp only [String.data_append] at hd
      have hA : ("<b>Useful windows:</b> " : String).data.length = 23 := by decide
      have h3 := congrArg (fun l : List Char => l[3]?) hd
      dsimp only at h3
      rw [List.getElem?_append_left (by simp [List.length_append, hA]),
        List.getElem?_append_left (by simp [List.length_append, hA]),
        List.getElem?_append_left (by rw [hA]; norm_num)] at h3
      exact absurd h3 (by decide)
    · intro hlt; omega
  · rw [if_neg (by simpa using h)]
    simp only [true_iff]
    omega

/-- Claim C10 as amended: the spectrogram estimator returns an explicit
`None` (never raising) on any single-sample input, on any nonempty input
where fewer than two samples survive the clip, and on any nonempty input
whose retained mean sample interval is non-positive (an EMPTY input still
raises, from `np.max` of an empty array); the noise analyzer raises
`IndexError` on fewer than two samples and `ZeroDivisionError` when the
derived `dt` is zero or the derived hop is zero, and returns `None` (result
unavailable, not zero-valued output) when the frame count `wins` is
non-positive. -/
theorem C10_theorem (t d t0 t1 clip : ℚ) (rest gyro throttle time dat : List ℚ) :
    (calculateSpectrogram [t] [d] 1 = Except.ok none) ∧
    (time ≠ [] → (specRetained time dat clip).2.length < 2 →
      calculateSpectrogram time dat clip = Except.ok none) ∧
    (time ≠ [] →
      (qdiffs (specRetained time dat clip).1).sum
          / ((qdiffs (specRetained time dat clip).1).length : ℚ) ≤ 0 →
      calculateSpectrogram time dat clip = Except.ok none) ∧
    (time.length < 2 → processGyroData time gyro throttle = Except.error PyErr.indexError) ∧
    (t1 - t0 = 0 → processGyroData (t0 :: t1 :: rest) gyro throttle
        = Except.error PyErr.zeroDivision) ∧
    (t1 - t0 ≠ 0 → pyTrunc ((pyTrunc ((3/10) / (t1 - t0)) : ℚ) / 16) = 0 →
      processGyroData (t0 :: t1 :: rest) gyro throttle = Except.error PyErr.zeroDivision) ∧
    (t1 - t0 ≠ 0 → pyTrunc ((pyTrunc ((3/10) / (t1 - t0)) : ℚ) / 16) ≠ 0 →
      pyTrunc (((t0 :: t1 :: rest).length : ℚ)
          / (pyTrunc ((pyTrunc ((3/10) / (t1 - t0)) : ℚ) / 16) : ℚ)) - 16 ≤ 0 →
      processGyroData (t0 :: t1 :: rest) gyro throttle = Except.ok none) := by
  refine ⟨?_, ?_, ?_, ?_, ?_, ?_, ?_⟩
  · rw [calculateSpectrogram]
    rw [if_neg (by simp)]
    simp [specNormTime_singleton, qmaxList]
  · intro hne hretained
    simp only [calculateSpectrogram]
    rw [if_neg hne]
    by_cases hany : (specNormTime time).any
        (fun u => decide (clip < u ∧ u < qmaxList (specNormTime time) - clip)) = true
    · rw [if_neg (not_not_intro hany), if_pos hretained]
    · rw [if_pos hany]
  · intro hne hdt
    simp only [calculateSpectrogram]
    rw [if_neg hne]
    by_cases hany : (specNormTime time).any
        (fun u => decide (clip < u ∧ u < qmaxList (specNormTime time) - clip)) = true
    · rw [if_neg (not_not_intro hany)]
      by_cases hlen : (specRetained time dat clip).2.length < 2
      · rw [if_pos hlen]
      · rw [if_neg hlen, if_pos hdt]
    · rw [if_pos hany]
  · intro hlen
    match time with
    | [] => rfl
    | [x] => rfl
    | x :: y :: z => simp only [List.length_cons] at hlen; omega
  · intro hdt
    simp only [processGyroData]
    rw [if_pos hdt]
  · intro hdt hshift
    simp only [processGyroData]
    rw [if_neg hdt, if_pos hshift]
  · intro hdt hshift hwins
    simp only [processGyroData]
    rw [if_neg hdt, if_neg hshift, if_pos hwins]

/-- Claim C10 witness: the amended statement evaluated at concrete inputs
(a one-sample spectrogram input, a series whose clip leaves fewer than two
samples, a degenerate retained interval, a one-sample noise input, a
zero-`dt` noise input, a large-`dt` input that zeroes the hop, and a short
series with positive hop). -/
theorem C10_witness :
    (calculateSpectrogram [(7 : ℚ)] [(3 : ℚ)] 1 = Except.ok none) ∧
    (calculateSpectrogram [(0 : ℚ), 1, 2] [] 1 = Except.ok none) ∧
    (processGyroData [(0 : ℚ)] [] [] = Except.error PyErr.indexError) ∧
    (processGyroData [(2 : ℚ), 2, 2] [] [] = Except.error PyErr.zeroDivision) ∧
    (processGyroData [(0 : ℚ), 5, 10] [1, 2, 3] [1, 2, 3] = Except.error PyErr.zeroDivision) ∧
    (processGyroData ((List.range 10).map fun i => (i : ℚ) / 104)
        (List.replicate 10 (0 : ℚ)) (List.replicate 10 (0 : ℚ)) = Except.ok none) := by
  have h1 := (C10_theorem 7 3 0 0 1 [] [] [] [] []).1
  have h1b := (C10_theorem 7 3 0 0 1 [] [] [] [(0 : ℚ), 1, 2] []).2.1
    (by simp) (by with_unfolding_all decide)
  have h2 := (C10_theorem 7 3 0 0 1 [] [] [] [(0 : ℚ)] []).2.2.2.1 (by decide)
  have h3 := (C10_theorem 7 3 2 2 1 [(2 : ℚ)] [] [] [] []).2.2.2.2.1 (by norm_num)
  have h4 := (C10_theorem 7 3 0 5 1 [(10 : ℚ)] [1, 2, 3] [1, 2, 3] [] []).2.2.2.2.2.1
    (by norm_num) (by with_unfolding_all decide)
  have h5 := (C10_theorem 7 3 0 (1/104) 1
    ((List.range 8).map fun i => ((i + 2 : ℕ) : ℚ) / 104)
    (List.replicate 10 (0 : ℚ)) (List.replicate 10 (0 : ℚ)) [] []).2.2.2.2.2.2
    (by norm_num) (by with_unfolding_all decide) (by with_unfolding_all decide)
  refine ⟨h1, h1b, h2, h3, h4, ?_⟩
  have he : ((List.range 10).map fun i => (i : ℚ) / 104)
      = (0 : ℚ) :: (1/104 : ℚ) :: ((List.range 8).map fun i => ((i + 2 : ℕ) : ℚ) / 104) := by
    with_unfolding_all decide
  rw [he]
  exact h5

/-- Claim C8: in the throttle-binned noise histogram, every throttle bin with
zero frame count has an exactly-zero column (never divided, hence never NaN),
and every throttle bin with nonzero frame count has its column equal to the
raw weighted column divided by that bin's frame count (the mean per-frame
spectral weight of the bin). -/
theorem C8_theorem (x y : List ℚ) (w : ℕ → ℕ → ℚ) (nfb tb : ℕ) :
    (throtHist x tb = 0 → ∀ fb, hist2dNorm x y w nfb fb tb = 0) ∧
    (0 < throtHist x tb →
      ∀ fb, hist2dNorm x y w nfb fb tb = hist2dRaw x y w nfb fb tb / (throtHist x tb : ℚ)) := by
  constructor
  · intro h0 fb
    have hall := List.countP_eq_zero.mp h0
    have hraw : hist2dRaw x y w nfb fb tb = 0 := by
      unfold hist2dRaw
      refine Finset.sum_eq_zero fun f hf => Finset.sum_eq_zero fun j _ => ?_
      rw [if_neg]
      rintro ⟨h1, _⟩
      have hflt : f < x.length := Finset.mem_range.mp hf
      have hmem : x.getD f 0 ∈ x := by
        rw [List.getD_eq_getElem x 0 hflt]
        exact List.getElem_mem hflt
      have := hall _ hmem
      rw [decide_eq_true_eq] at this
      exact this h1
    unfold hist2dNorm
    rw [if_neg (by omega), hraw]
  · intro hpos fb
    unfold hist2dNorm
    rw [if_pos hpos]

/-- Claim C8 witness: the normalization law evaluated on a concrete input
(one frame at mean throttle 50, two frequency samples, unit weights):
throttle bin 0 holds no frame and its column is 0, throttle bin 50 holds one
frame and its column is the raw column divided by its count. -/
theorem C8_witness :
    hist2dNorm [50] [0, 10] (fun _ _ => 1) 1 0 0 = 0 ∧
      hist2dNorm [50] [0, 10] (fun _ _ => 1) 1 0 50
        = hist2dRaw [50] [0, 10] (fun _ _ => 1) 1 0 50 / ((throtHist [50] 50 : ℕ) : ℚ) :=
  ⟨(C8_theorem [50] [0, 10] (fun _ _ => 1) 1 0).1 (by with_unfolding_all decide) 0,
   (C8_theorem [50] [0, 10] (fun _ _ => 1) 1 50).2 (by with_unfolding_all decide) 0⟩

/-- Claim C9 counterexample: for the 4-second series sampled at 2 Hz the
spectrogram estimator returns the time axis `[3/4]`, whose value does not lie
in the claimed open interval `(1, T - 1) = (1, 3)`: the returned axis is
relative to the clipped segment, not to the original time coordinates. -/
theorem C9_counterexample :
    calculateSpectrogram [0, 1/2, 1, 3/2, 2, 5/2, 3, 7/2, 4]
        (List.replicate 9 (0 : ℚ)) 1 = Except.ok (some [3/4]) ∧
      ¬ ((1 : ℚ) < 3/4) := by
  refine ⟨by with_unfolding_all rfl, by norm_num⟩

/-- Claim C9 as amended: every sample retained by the clipping mask has its
normalized time strictly inside the open interval from `clip` to `T - clip`
(`T` the normalized duration), and when `T ≤ 2 * clip` the estimator returns
`None`; the returned STFT time axis itself, however, is relative to the
clipped segment's start, not to the original time coordinates. -/
theorem C9_theorem (time data : List ℚ) (clip t : ℚ) (hne : time ≠ []) :
    (t ∈ (specRetained time data clip).1 →
      clip < t ∧ t < qmaxList (specNormTime time) - clip) ∧
    (qmaxList (specNormTime time) ≤ 2 * clip →
      calculateSpectrogram time data clip = Except.ok none) := by
  constructor
  · intro ht
    unfold specRetained at ht
    dsimp only at ht
    rw [List.mem_map] at ht
    obtain ⟨p, hp, hpt⟩ := ht
    rw [List.mem_filter] at hp
    have := of_decide_eq_true hp.2
    rw [hpt] at this
    exact this
  · intro hT
    have hany : (specNormTime time).any
        (fun u => decide (clip < u ∧ u < qmaxList (specNormTime time) - clip)) = false := by
      rw [List.any_eq_false]
      intro u _
      rw [decide_eq_true_eq]
      rintro ⟨h1, h2⟩
      linarith
    simp only [calculateSpectrogram]
    rw [if_neg hne, if_pos (by rw [hany]; simp)]

/-- Claim C9 witness: the amended statement evaluated at a concrete 2-second
series (duration equal to `2 * clip`, hence `None`). -/
theorem C9_witness :
    (((3 : ℚ)/2) ∈ (specRetained [0, 1, 2] [] 1).1 →
      1 < (3 : ℚ)/2 ∧ (3 : ℚ)/2 < qmaxList (specNormTime [0, 1, 2]) - 1) ∧
    (qmaxList (specNormTime [0, 1, 2]) ≤ 2 * 1 →
      calculateSpectrogram [0, 1, 2] [] 1 = Except.ok none) :=
  C9_theorem [0, 1, 2] [] 1 (3/2) (by simp)

/-! ### Real-layer supporting lemmas -/

theorem gaussWeight_pos (sigma : ℕ) (d : ℤ) : 0 < gaussWeight sigma d :=
  Real.exp_pos _

theorem gaussNorm_pos (sigma : ℕ) : 0 < gaussNorm sigma := by
  unfold gaussNorm
  refine Finset.sum_pos (fun d _ => gaussWeight_pos sigma d) ⟨0, ?_⟩
  rw [Finset.mem_Icc]
  constructor
  · simp
  · positivity

theorem reflectNat_lt (n : ℕ) (hn : 0 < n) (z : ℤ) : reflectNat n z < n := by
  unfold reflectNat
  have h2n : (0 : ℤ) < 2 * (n : ℤ) := by positivity
  have hlt : z.emod (2 * (n : ℤ)) < 2 * (n : ℤ) := Int.emod_lt_of_pos z h2n
  have hge : 0 ≤ z.emod (2 * (n : ℤ)) := Int.emod_nonneg z (by positivity)
  have hcast : ((z.emod (2 * (n : ℤ))).toNat : ℤ) = z.emod (2 * (n : ℤ)) :=
    Int.toNat_of_nonneg hge
  by_cases h : (z.emod (2 * (n : ℤ))).toNat < n
  · rw [if_pos h]; exact h
  · rw [if_neg h]; omega

theorem extendReflect_mem {n : ℕ} (x : Vec n) (lo hi : ℝ) (hn : 0 < n)
    (hx : ∀ i, lo ≤ x i ∧ x i ≤ hi) (z : ℤ) :
    lo ≤ extendReflect x z ∧ extendReflect x z ≤ hi := by
  unfold extendReflect
  rw [dif_pos (reflectNat_lt n hn z)]
  exact hx _

theorem gaussFilterReflect_mem {n : ℕ} (sigma : ℕ) (x : Vec n) (lo hi : ℝ) (hn : 0 < n)
    (hx : ∀ i, lo ≤ x i ∧ x i ≤ hi) (i : Fin n) :
    lo ≤ gaussFilterReflect sigma x i ∧ gaussFilterReflect sigma x i ≤ hi := by
  unfold gaussFilterReflect
  have hS := gaussNorm_pos sigma
  have hlow : gaussNorm sigma * lo
      ≤ ∑ d ∈ Finset.Icc (-(gaussRadius sigma : ℤ)) (gaussRadius sigma : ℤ),
          gaussWeight sigma d * extendReflect x ((i : ℕ) + d) := by
    rw [gaussNorm, Finset.sum_mul]
    refine Finset.sum_le_sum fun d _ => ?_
    exact mul_le_mul_of_nonneg_left (extendReflect_mem x lo hi hn hx _).1
      (le_of_lt (gaussWeight_pos _ _))
  have hhigh : (∑ d ∈ Finset.Icc (-(gaussRadius sigma : ℤ)) (gaussRadius sigma : ℤ),
        gaussWeight sigma d * extendReflect x ((i : ℕ) + d))
      ≤ gaussNorm sigma * hi := by
    rw [gaussNorm, Finset.sum_mul]
    refine Finset.sum_le_sum fun d _ => ?_
    exact mul_le_mul_of_nonneg_left (extendReflect_mem x lo hi hn hx _).2
      (le_of_lt (gaussWeight_pos _ _))
  constructor
  · have := mul_le_mul_of_nonneg_left hlow (le_of_lt (inv_pos.mpr hS))
    rwa [← mul_assoc, inv_mul_cancel₀ (ne_of_gt hS), one_mul] at this
  · have := mul_le_mul_of_nonneg_left hhigh (le_of_lt (inv_pos.mpr hS))
    rwa [← mul_assoc, inv_mul_cancel₀ (ne_of_gt hS), one_mul] at this

theorem clipR_mem (lo hi v : ℝ) (h : lo ≤ hi) :
    lo ≤ clipR lo hi v ∧ clipR lo hi v ≤ hi := by
  unfold clipR
  exact ⟨le_min (le_max_right v lo) h, min_le_right _ _⟩

theorem vmin_le {n : ℕ} (x : Vec n) (i : Fin n) : vmin x ≤ x i := by
  unfold vmin
  rw [dif_pos i.pos]
  exact Finset.inf'_le x (Finset.mem_univ i)

theorem le_vmin {n : ℕ} (x : Vec n) (a : ℝ) (hn : 0 < n) (h : ∀ i, a ≤ x i) :
    a ≤ vmin x := by
  unfold vmin
  rw [dif_pos hn]
  exact Finset.le_inf' _ _ fun i _ => h i

theorem le_vmax {n : ℕ} (x : Vec n) (i : Fin n) : x i ≤ vmax x := by
  unfold vmax
  rw [dif_pos i.pos]
  exact Finset.le_sup' x (Finset.mem_univ i)

theorem vmax_le {n : ℕ} (x : Vec n) (a : ℝ) (hn : 0 < n) (h : ∀ i, x i ≤ a) :
    vmax x ≤ a := by
  unfold vmax
  rw [dif_pos hn]
  exact Finset.sup'_le _ _ fun i _ => h i

theorem vmax_zero {n : ℕ} : vmax (fun _ : Fin n => (0 : ℝ)) = 0 := by
  unfold vmax
  split
  · exact Finset.sup'_const _ 0
  · rfl

theorem snSRC_neg (P : ℕ) (d c : ℝ) (hc : 2 ≤ c) (k : Fin P) : snSRC P d c k < 0 := by
  have hn : 0 < P := k.pos
  have hb : ∀ j : Fin P, c - 1e-9 ≤ srcS0 P d c j ∧ srcS0 P d c j ≤ c := by
    intro j
    exact clipR_mem _ _ _ (by norm_num)
  have hs := gaussFilterReflect_mem (srcFiltWidth P d c) (srcS0 P d c) (c - 1e-9) c hn hb k
  unfold snSRC
  have h1 := hs.1
  nlinarith [h1]

theorem clippedFreq_eq (P : ℕ) (d c : ℝ)
    (h1 : ∀ k : Fin P, |fftfreq P d k| ≤ c - 1e-9 ∨ c ≤ |fftfreq P d k|) (k : Fin P) :
    clippedFreq P d c k = if c ≤ |fftfreq P d k| then c else c - 1e-9 := by
  unfold clippedFreq clipR
  rcases h1 k with h | h
  · rw [if_neg (by intro hc; linarith), max_eq_right h, min_eq_left (by linarith)]
  · rw [if_pos h, max_eq_left (by linarith), min_eq_right h]

theorem stS0_indicator (P : ℕ) (d c : ℝ)
    (h1 : ∀ k : Fin P, |fftfreq P d k| ≤ c - 1e-9 ∨ c ≤ |fftfreq P d k|)
    (h2 : ∃ k : Fin P, |fftfreq P d k| ≤ c - 1e-9)
    (h3 : ∃ k : Fin P, c ≤ |fftfreq P d k|) (k : Fin P) :
    stS0 P d c k = if c ≤ |fftfreq P d k| then 1 else 0 := by
  obtain ⟨k2, hk2⟩ := h2
  obtain ⟨k3, hk3⟩ := h3
  have hno2 : ¬ c ≤ |fftfreq P d k2| := by intro hc; linarith
  have hvmin : vmin (clippedFreq P d c) = c - 1e-9 := by
    refine le_antisymm ?_ ?_
    · have := vmin_le (clippedFreq P d c) k2
      rwa [clippedFreq_eq P d c h1 k2, if_neg hno2] at this
    · refine le_vmin _ _ k2.pos fun i => ?_
      rw [clippedFreq_eq P d c h1 i]
      split
      · linarith
      · exact le_refl _
  have hshift : ∀ i, clippedFreq P d c i - vmin (clippedFreq P d c)
      = if c ≤ |fftfreq P d i| then (1e-9 : ℝ) else 0 := by
    intro i
    rw [hvmin, clippedFreq_eq P d c h1 i]
    split
    · ring
    · ring
  have hvmax : vmax (fun i => clippedFreq P d c i - vmin (clippedFreq P d c))
      = (1e-9 : ℝ) := by
    refine le_antisymm ?_ ?_
    · refine vmax_le _ _ k3.pos fun i => ?_
      rw [hshift i]
      split
      · exact le_refl _
      · norm_num
    · have := le_vmax (fun i => clippedFreq P d c i - vmin (clippedFreq P d c)) k3
      rwa [hshift k3, if_pos hk3] at this
  unfold stS0 toMask
  dsimp only
  rw [if_pos (by rw [hvmax]; norm_num)]
  rw [hvmax, hshift k]
  split
  · norm_num
  · norm_num

/-- Claim C4 counterexample: the base profile the code builds
(`to_mask(clip(|freq|, cutfreq - 1e-9, cutfreq))`) is a HIGH-pass indicator —
at the 0 Hz bin (below the 25 Hz cutoff) it equals 0, while the claim's
low-pass indicator ("1 below the cutoff") equals 1 there. -/
theorem C4_counterexample :
    stS0 2 (1/100) 25 0 = 0 ∧ specLowpassIndicator 2 (1/100) 25 0 = 1 ∧
      stS0 2 (1/100) 25 0 ≠ specLowpassIndicator 2 (1/100) 25 0 := by
  have hf0 : fftfreq 2 (1/100) 0 = 0 := by
    norm_num [fftfreq]
  have h1 : ∀ k : Fin 2, |fftfreq 2 (1/100) k| ≤ 25 - 1e-9 ∨ 25 ≤ |fftfreq 2 (1/100) k| := by
    intro k
    fin_cases k
    · left
      norm_num [fftfreq]
    · right
      norm_num [fftfreq]
  have hs0 : stS0 2 (1/100) 25 0 = 0 := by
    rw [stS0_indicator 2 (1/100) 25 h1 ⟨0, by rw [hf0]; norm_num⟩
      ⟨1, by norm_num [fftfreq]⟩ 0]
    rw [hf0]
    norm_num
  have hsp : specLowpassIndicator 2 (1/100) 25 0 = 1 := by
    unfold specLowpassIndicator
    rw [hf0]
    norm_num
  refine ⟨hs0, hsp, ?_⟩
  rw [hs0, hsp]
  norm_num

/-- Claim C4 as amended: in `StepTrace` the regularization profile starts
from the to_mask-normalized clipped `|freq|`, which is a hard HIGH-pass
indicator (0 at bins below the cutoff, 1 at or above it — the opposite of
the claimed low-pass indicator), the Gaussian width is
`max(1, round(#below-cutoff bins / 6))`, and the final profile is
`10 * (1 + 1e-9 - to_mask(gaussian_filter1d(indicator, width)))`, large in
the passband and tiny above the cutoff (so `1/sn` suppresses content above
the cutoff); in `StepResponseCalculator` the `to_mask` normalization is
missing and the resulting profile is NEGATIVE at every frequency bin for the
code's `cutfreq = 25` — not a noise-suppression profile at all. -/
theorem C4_theorem (P : ℕ) (d c : ℝ)
    (h1 : ∀ k : Fin P, |fftfreq P d k| ≤ c - 1e-9 ∨ c ≤ |fftfreq P d k|)
    (h2 : ∃ k : Fin P, |fftfreq P d k| ≤ c - 1e-9)
    (h3 : ∃ k : Fin P, c ≤ |fftfreq P d k|) (hc : 2 ≤ c) :
    (∀ k, stS0 P d c k = if c ≤ |fftfreq P d k| then 1 else 0) ∧
    ((∑ k, (1 - stS0 P d c k))
      = ((Finset.univ.filter fun k : Fin P => |fftfreq P d k| < c).card : ℝ)) ∧
    (∀ k, snStepTrace P d c k
      = 10 * (1 + 1e-9 - toMask (gaussFilterReflect (stFiltWidth P d c) (stS0 P d c)) k)) ∧
    (∀ k : Fin P, snSRC P d c k < 0) := by
  have hchar := stS0_indicator P d c h1 h2 h3
  refine ⟨hchar, ?_, ?_, fun k => snSRC_neg P d c hc k⟩
  · have hcard : (∑ k, (1 - stS0 P d c k))
        = ∑ k : Fin P, if |fftfreq P d k| < c then (1 : ℝ) else 0 := by
      refine Finset.sum_congr rfl fun k _ => ?_
      rw [hchar k]
      by_cases h : c ≤ |fftfreq P d k|
      · rw [if_pos h, if_neg (not_lt.mpr h)]
        ring
      · rw [if_neg h, if_pos (not_le.mp h)]
        ring
    rw [hcard, Finset.sum_boole]
  · intro k
    unfold snStepTrace
    ring

/-- Claim C4 witness: the amended profile characterization evaluated at a
concrete 2-bin grid sampled at 100 Hz with the code's 25 Hz cutoff. -/
theorem C4_witness :
    stS0 2 (1/100) 25 1 = (if (25 : ℝ) ≤ |fftfreq 2 (1/100) 1| then 1 else 0) ∧
      snSRC 2 (1/100) 25 1 < 0 := by
  have h1 : ∀ k : Fin 2, |fftfreq 2 (1/100) k| ≤ 25 - 1e-9 ∨ 25 ≤ |fftfreq 2 (1/100) k| := by
    intro k
    fin_cases k
    · left
      norm_num [fftfreq]
    · right
      norm_num [fftfreq]
  have h2 : ∃ k : Fin 2, |fftfreq 2 (1/100) k| ≤ 25 - 1e-9 :=
    ⟨0, by norm_num [fftfreq]⟩
  have h3 : ∃ k : Fin 2, (25 : ℝ) ≤ |fftfreq 2 (1/100) k| :=
    ⟨1, by norm_num [fftfreq]⟩
  exact ⟨(C4_theorem 2 (1/100) 25 h1 h2 h3 (by norm_num)).1 1,
    (C4_theorem 2 (1/100) 25 h1 h2 h3 (by norm_num)).2.2.2 1⟩

theorem zipWith_mul_replicate_zero (l : List ℚ) (n : ℕ) :
    List.zipWith (· * ·) l (List.replicate n (0 : ℚ)) = List.replicate (min l.length n) 0 := by
  induction l generalizing n with
  | nil => simp
  | cons a t ih =>
    cases n with
    | zero => simp
    | succ k =>
      simp only [List.replicate_succ, List.zipWith_cons_cons, ih, mul_zero,
        List.length_cons]
      rw [Nat.succ_min_succ]
      rfl

theorem wmaHist_zero_weights {m nT : ℕ} (timeResp : Fin nT → ℝ)
    (values : Fin m → Fin nT → ℝ) (weights : Fin m → ℝ) (lo hi : ℝ) (nV : ℕ)
    (hw : ∀ f, weights f = 0) :
    wmaHist timeResp values weights lo hi nV = fun _ _ => 0 := by
  funext v c
  unfold wmaHist
  refine Finset.sum_eq_zero fun f _ => Finset.sum_eq_zero fun j _ => ?_
  rw [hw f]
  exact ite_self 0

theorem weightedModeAvr_zero_weights {m nT : ℕ} (timeResp : Fin nT → ℝ)
    (values : Fin m → Fin nT → ℝ) (weights : Fin m → ℝ) (lo hi : ℝ) (nV : ℕ)
    (hw : ∀ f, weights f = 0) :
    weightedModeAvr timeResp values weights lo hi nV
      = Except.ok (fun _ => some 0, fun _ => 0) := by
  have hh := wmaHist_zero_weights timeResp values weights lo hi nV hw
  have hstd : wmaStd timeResp values weights lo hi nV = fun _ => 0 := by
    funext c
    unfold wmaStd
    rw [hh]
    refine Finset.sum_eq_zero fun v _ => ?_
    rw [if_pos (by norm_num)]
  unfold weightedModeAvr
  rw [if_pos (by rw [hh]; simp), hstd]

theorem gaussFilterZero_zero_col {n : ℕ} (sigma : ℕ) :
    gaussFilterZero sigma (fun _ : Fin n => (0 : ℝ)) = fun _ => 0 := by
  funext i
  unfold gaussFilterZero
  rw [Finset.sum_eq_zero, mul_zero]
  intro d _
  unfold extendZero
  split
  · exact mul_zero _
  · exact mul_zero _

theorem oSum_none {n : ℕ} (g : Fin n → Option ℝ) (i : Fin n) (hi : g i = none) :
    oSum g = none := by
  unfold oSum
  rw [if_neg]
  intro hall
  have := hall i
  rw [hi] at this
  exact Bool.noConfusion this

theorem oSum_some {n : ℕ} (g : Fin n → Option ℝ) (h : ∀ i, (g i).isSome) :
    oSum g = some (∑ i, (g i).getD 0) := by
  unfold oSum
  rw [if_pos h]

theorem wmaScl_ne_some_zero {m nT : ℕ} (timeResp : Fin nT → ℝ)
    (values : Fin m → Fin nT → ℝ) (weights : Fin m → ℝ) (lo hi : ℝ) (nV : ℕ)
    (hnV : 0 < nV) (c : Fin nT) :
    wmaScl timeResp values weights lo hi nV c ≠ some 0 := by
  by_cases hcm : wmaColMax timeResp values weights lo hi nV c = 0
  · have hW : wmaW timeResp values weights lo hi nV ⟨0, hnV⟩ c = none := by
      unfold wmaW fdiv
      rw [hcm, if_pos rfl]
      rfl
    unfold wmaScl
    rw [oSum_none _ ⟨0, hnV⟩ hW]
    exact fun hcon => Option.noConfusion hcon
  · have hWs : ∀ v, wmaW timeResp values weights lo hi nV v c
        = some ((wmaSm timeResp values weights lo hi nV v c
            / wmaColMax timeResp values weights lo hi nV c)
          * (wmaSm timeResp values weights lo hi nV v c
            / wmaColMax timeResp values weights lo hi nV c)) := by
      intro v
      unfold wmaW fdiv
      rw [if_neg hcm]
      rfl
    intro hcontra
    unfold wmaScl at hcontra
    rw [oSum_some _ (fun v => by rw [hWs v]; rfl)] at hcontra
    have hsum := Option.some.inj hcontra
    have hz := (Finset.sum_eq_zero_iff_of_nonneg
      (fun v _ => by rw [hWs v]; exact mul_self_nonneg _)).mp hsum
    have hsm0 : ∀ v, wmaSm timeResp values weights lo hi nV v c = 0 := by
      intro v
      have hv := hz v (Finset.mem_univ v)
      rw [hWs v] at hv
      have hq := mul_self_eq_zero.mp hv
      exact (div_eq_zero_iff.mp hq).resolve_right hcm
    apply hcm
    unfold wmaColMax
    rw [show (fun v => wmaSm timeResp values weights lo hi nV v c)
        = fun _ : Fin nV => (0 : ℝ) from funext hsm0, vmax_zero]

open Classical in
theorem weightedModeAvr_ok_form {m nT : ℕ} (timeResp : Fin nT → ℝ)
    (values : Fin m → Fin nT → ℝ) (weights : Fin m → ℝ) (lo hi : ℝ) (nV : ℕ)
    (hnV : 0 < nV)
    (htot : (∑ v : Fin nV, ∑ c : Fin nT, wmaHist timeResp values weights lo hi nV v c) ≠ 0) :
    weightedModeAvr timeResp values weights lo hi nV
      = Except.ok (wmaAvr timeResp values weights lo hi nV,
          wmaStd timeResp values weights lo hi nV) := by
  unfold weightedModeAvr
  rw [if_neg htot, if_neg]
  rintro ⟨c, hc⟩
  exact wmaScl_ne_some_zero timeResp values weights lo hi nV hnV c hc

theorem wmaAvr_none_of_zero_col {m nT : ℕ} (timeResp : Fin nT → ℝ)
    (values : Fin m → Fin nT → ℝ) (weights : Fin m → ℝ) (lo hi : ℝ) (nV : ℕ)
    (hnV : 0 < nV) (c : Fin nT)
    (hcol : ∀ v, wmaHist timeResp values weights lo hi nV v c = 0) :
    wmaAvr timeResp values weights lo hi nV c = none := by
  have hsm : ∀ v, wmaSm timeResp values weights lo hi nV v c = 0 := by
    intro v
    unfold wmaSm
    rw [show (fun u => wmaHist timeResp values weights lo hi nV u c)
        = fun _ : Fin nV => (0 : ℝ) from funext hcol, gaussFilterZero_zero_col]
  have hcm : wmaColMax timeResp values weights lo hi nV c = 0 := by
    unfold wmaColMax
    rw [show (fun v => wmaSm timeResp values weights lo hi nV v c)
        = fun _ : Fin nV => (0 : ℝ) from funext hsm, vmax_zero]
  have hW : wmaW timeResp values weights lo hi nV ⟨0, hnV⟩ c = none := by
    unfold wmaW fdiv
    rw [hcm, if_pos rfl]
    rfl
  unfold wmaAvr
  rw [oSum_none _ ⟨0, hnV⟩ (by rw [hW]; rfl)]
  rfl

/-- Claim C5: when fewer than 10 frames have `max_in` strictly above the
threshold, `low_high_mask` zeroes the whole `high` mask; at threshold 20
this makes `toolow_mask` and hence the principal-aggregate weight vector
`low_mask * toolow_mask` identically zero, and `weighted_mode_avr` with an
all-zero weight vector degenerates to the all-zero mean curve (its zero-sum
branch), even though up to 9 frames with usable excitation may exist. -/
theorem C5_theorem (maxIn : List ℚ) (t : ℚ) {m nT : ℕ} (timeResp : Fin nT → ℝ)
    (values : Fin m → Fin nT → ℝ) (weights : Fin m → ℝ) (lo hi : ℝ) (nV : ℕ)
    (ht : 1 ≤ t) (h10 : (maxIn.countP fun x => decide (t < x)) < 10)
    (hw : ∀ f, weights f = 0) :
    (lowHighMask maxIn t).2 = List.replicate maxIn.length 0 ∧
    ((maxIn.countP fun x => decide ((20 : ℚ) < x)) < 10 →
      stRespLowWeights maxIn = List.replicate maxIn.length 0) ∧
    weightedModeAvr timeResp values weights lo hi nV
      = Except.ok (fun _ => some 0, fun _ => 0) := by
  refine ⟨lowHighMask_snd_of_small maxIn t ht h10, ?_,
    weightedModeAvr_zero_weights timeResp values weights lo hi nV hw⟩
  intro h20
  unfold stRespLowWeights
  rw [lowHighMask_snd_of_small maxIn 20 (by norm_num) h20]
  rw [zipWith_mul_replicate_zero]
  have hlen : (lowHighMask maxIn 500).1.length = maxIn.length := by
    rw [lowHighMask_fst maxIn 500 (by norm_num), List.length_map]
  rw [hlen, min_self]

/-- Claim C5 witness: the degenerate-mask behavior evaluated on the concrete
`max_in = [30, 10]` (one frame above 20, fewer than 10) with a concrete
all-zero weight vector. -/
theorem C5_witness :
    (lowHighMask [30, 10] 20).2 = List.replicate ([30, 10] : List ℚ).length 0 ∧
    ((([30, 10] : List ℚ).countP fun x => decide ((20 : ℚ) < x)) < 10 →
      stRespLowWeights [30, 10] = List.replicate ([30, 10] : List ℚ).length 0) ∧
    weightedModeAvr (fun _ : Fin 1 => (0 : ℝ)) (fun _ : Fin 1 => fun _ : Fin 1 => (0 : ℝ))
        (fun _ : Fin 1 => (0 : ℝ)) 0 1 1
      = Except.ok (fun _ => some 0, fun _ => 0) :=
  C5_theorem [30, 10] 20 (fun _ : Fin 1 => (0 : ℝ))
    (fun _ : Fin 1 => fun _ : Fin 1 => (0 : ℝ)) (fun _ : Fin 1 => (0 : ℝ)) 0 1 1
    (by norm_num) (by with_unfolding_all decide) (fun _ => rfl)

/-- Claim C7 as amended: `weighted_mode_avr` never raises — the
`ZeroDivisionError` guard inside `np.average` is unreachable because a
zero-maximum column yields NaN weights (`0/0`), not zero weights; when the
WHOLE histogram sums to zero the average defaults to the all-zero curve; but
when the histogram is nonzero, a time column with zero sum produces a NaN
average entry for that column (from the `0/0` column normalization), not 0
as the claim states. -/
theorem C7_theorem {m nT : ℕ} (timeResp : Fin nT → ℝ) (values : Fin m → Fin nT → ℝ)
    (weights : Fin m → ℝ) (lo hi : ℝ) (nV : ℕ) (hnV : 0 < nV) :
    (∃ r, weightedModeAvr timeResp values weights lo hi nV = Except.ok r) ∧
    ((∑ v : Fin nV, ∑ c : Fin nT, wmaHist timeResp values weights lo hi nV v c) = 0 →
      weightedModeAvr timeResp values weights lo hi nV
        = Except.ok (fun _ => some 0, wmaStd timeResp values weights lo hi nV)) ∧
    ((∑ v : Fin nV, ∑ c : Fin nT, wmaHist timeResp values weights lo hi nV v c) ≠ 0 →
      weightedModeAvr timeResp values weights lo hi nV
        = Except.ok (wmaAvr timeResp values weights lo hi nV,
            wmaStd timeResp values weights lo hi nV) ∧
      ∀ c, (∀ v, wmaHist timeResp values weights lo hi nV v c = 0) →
        wmaAvr timeResp values weights lo hi nV c = none) := by
  have hzero : (∑ v : Fin nV, ∑ c : Fin nT, wmaHist timeResp values weights lo hi nV v c) = 0 →
      weightedModeAvr timeResp values weights lo hi nV
        = Except.ok (fun _ => some 0, wmaStd timeResp values weights lo hi nV) := by
    intro htot
    unfold weightedModeAvr
    rw [if_pos htot]
  refine ⟨?_, hzero, fun htot => ⟨weightedModeAvr_ok_form timeResp values weights lo hi nV hnV htot,
    fun c hcol => wmaAvr_none_of_zero_col timeResp values weights lo hi nV hnV c hcol⟩⟩
  by_cases htot : (∑ v : Fin nV, ∑ c : Fin nT, wmaHist timeResp values weights lo hi nV v c) = 0
  · exact ⟨_, hzero htot⟩
  · exact ⟨_, weightedModeAvr_ok_form timeResp values weights lo hi nV hnV htot⟩

/-- Claim C7 witness: the amended statement evaluated on a concrete 1-frame,
2-column instance. -/
theorem C7_witness :
    (∃ r, weightedModeAvr (fun _ : Fin 1 => (0 : ℝ))
        (fun _ : Fin 1 => fun _ : Fin 1 => (0 : ℝ)) (fun _ : Fin 1 => (1 : ℝ)) 0 1 2
      = Except.ok r) ∧
    ((∑ v : Fin 2, ∑ c : Fin 1, wmaHist (fun _ : Fin 1 => (0 : ℝ))
        (fun _ : Fin 1 => fun _ : Fin 1 => (0 : ℝ)) (fun _ : Fin 1 => (1 : ℝ)) 0 1 2 v c) = 0 →
      weightedModeAvr (fun _ : Fin 1 => (0 : ℝ))
          (fun _ : Fin 1 => fun _ : Fin 1 => (0 : ℝ)) (fun _ : Fin 1 => (1 : ℝ)) 0 1 2
        = Except.ok (fun _ => some 0, wmaStd (fun _ : Fin 1 => (0 : ℝ))
            (fun _ : Fin 1 => fun _ : Fin 1 => (0 : ℝ)) (fun _ : Fin 1 => (1 : ℝ)) 0 1 2)) ∧
    ((∑ v : Fin 2, ∑ c : Fin 1, wmaHist (fun _ : Fin 1 => (0 : ℝ))
        (fun _ : Fin 1 => fun _ : Fin 1 => (0 : ℝ)) (fun _ : Fin 1 => (1 : ℝ)) 0 1 2 v c) ≠ 0 →
      weightedModeAvr (fun _ : Fin 1 => (0 : ℝ))
          (fun _ : Fin 1 => fun _ : Fin 1 => (0 : ℝ)) (fun _ : Fin 1 => (1 : ℝ)) 0 1 2
        = Except.ok (wmaAvr (fun _ : Fin 1 => (0 : ℝ))
            (fun _ : Fin 1 => fun _ : Fin 1 => (0 : ℝ)) (fun _ : Fin 1 => (1 : ℝ)) 0 1 2,
          wmaStd (fun _ : Fin 1 => (0 : ℝ))
            (fun _ : Fin 1 => fun _ : Fin 1 => (0 : ℝ)) (fun _ : Fin 1 => (1 : ℝ)) 0 1 2) ∧
      ∀ c, (∀ v, wmaHist (fun _ : Fin 1 => (0 : ℝ))
          (fun _ : Fin 1 => fun _ : Fin 1 => (0 : ℝ)) (fun _ : Fin 1 => (1 : ℝ)) 0 1 2 v c = 0) →
        wmaAvr (fun _ : Fin 1 => (0 : ℝ))
            (fun _ : Fin 1 => fun _ : Fin 1 => (0 : ℝ)) (fun _ : Fin 1 => (1 : ℝ)) 0 1 2 c
          = none) :=
  C7_theorem (fun _ : Fin 1 => (0 : ℝ)) (fun _ : Fin 1 => fun _ : Fin 1 => (0 : ℝ))
    (fun _ : Fin 1 => (1 : ℝ)) 0 1 2 (by norm_num)

/-- Claim C1 as amended: the per-frame pipeline matches the claimed formula —
the real part of `IFFT(G * conj(H) / (H * conj(H) + 1/sn))` of the
zero-padded tapered frame pair (padding by `1024 - flen % 1024` samples, so
an already-1024-multiple row still gains a full extra block) truncated to
the first `rlen` samples, with `rlen` the TRUNCATED `int(0.5 * fs)` (not
`round`) — but the cumulative-sum integration happens only in `StepTrace`:
its per-frame curve equals the claimed integrated formula (with its
`to_mask`-normalized profile), while `StepResponseCalculator` returns the
RAW truncated deconvolution sample at each time index, and the claimed
integrated curve (with its un-normalized profile) equals the cumulative sum
of what `compute` actually returns — an integration the code never
performs. -/
theorem C1_theorem {m n : ℕ} (d c : ℝ) (rlen : ℕ) (inp gyro : Fin m → Vec n)
    (window : Vec n) (f : Fin m) (t : Fin rlen) :
    stStackDelta d c rlen inp gyro window f t
      = specFrameStepResponse (snStepTrace (n + padLen n) d c)
          (fun j => inp f j * window j) (fun j => gyro f j * window j) rlen t ∧
    srcStackDelta d c rlen inp gyro window f t
      = (if h : (t : ℕ) < n + padLen n
          then wienerRow (snSRC (n + padLen n) d c)
            (fun j => inp f j * window j) (fun j => gyro f j * window j) ⟨t, h⟩
          else 0) ∧
    specFrameStepResponse (snSRC (n + padLen n) d c)
        (fun j => inp f j * window j) (fun j => gyro f j * window j) rlen t
      = ∑ u ∈ Finset.range ((t : ℕ) + 1),
          if h : u < rlen then srcStackDelta d c rlen inp gyro window f ⟨u, h⟩
          else 0 := by
  refine ⟨rfl, rfl, ?_⟩
  unfold specFrameStepResponse
  refine Finset.sum_congr rfl fun u hu => ?_
  have hur : u < rlen :=
    lt_of_lt_of_le (Finset.mem_range.mp hu) (Nat.succ_le_of_lt t.isLt)
  rw [dif_pos hur]
  rfl

/-- Claim C7 counterexample: a concrete 1-frame input whose first time
column receives no histogram mass (the frame's value there lies outside the
vertical range) while the histogram total is nonzero: the computation takes
the nonzero branch, the zero column is normalized by its zero maximum
(`0/0`), and the averaged response value for that column is NaN (`none`),
not the claimed default 0. -/
theorem C7_counterexample :
    (∀ v : Fin 2, wmaHist (fun j : Fin 2 => if (j : ℕ) = 0 then (0 : ℝ) else 1)
        (fun _ : Fin 1 => fun j : Fin 2 => if (j : ℕ) = 0 then (100 : ℝ) else 0)
        (fun _ : Fin 1 => (1 : ℝ)) (-(3/2)) (7/2) 2 v 0 = 0) ∧
    (∑ v : Fin 2, ∑ c : Fin 2, wmaHist (fun j : Fin 2 => if (j : ℕ) = 0 then (0 : ℝ) else 1)
        (fun _ : Fin 1 => fun j : Fin 2 => if (j : ℕ) = 0 then (100 : ℝ) else 0)
        (fun _ : Fin 1 => (1 : ℝ)) (-(3/2)) (7/2) 2 v c) = 1 ∧
    weightedModeAvr (fun j : Fin 2 => if (j : ℕ) = 0 then (0 : ℝ) else 1)
        (fun _ : Fin 1 => fun j : Fin 2 => if (j : ℕ) = 0 then (100 : ℝ) else 0)
        (fun _ : Fin 1 => (1 : ℝ)) (-(3/2)) (7/2) 2
      = Except.ok (wmaAvr (fun j : Fin 2 => if (j : ℕ) = 0 then (0 : ℝ) else 1)
          (fun _ : Fin 1 => fun j : Fin 2 => if (j : ℕ) = 0 then (100 : ℝ) else 0)
          (fun _ : Fin 1 => (1 : ℝ)) (-(3/2)) (7/2) 2,
        wmaStd (fun j : Fin 2 => if (j : ℕ) = 0 then (0 : ℝ) else 1)
          (fun _ : Fin 1 => fun j : Fin 2 => if (j : ℕ) = 0 then (100 : ℝ) else 0)
          (fun _ : Fin 1 => (1 : ℝ)) (-(3/2)) (7/2) 2) ∧
    wmaAvr (fun j : Fin 2 => if (j : ℕ) = 0 then (0 : ℝ) else 1)
        (fun _ : Fin 1 => fun j : Fin 2 => if (j : ℕ) = 0 then (100 : ℝ) else 0)
        (fun _ : Fin 1 => (1 : ℝ)) (-(3/2)) (7/2) 2 0 = none ∧
    wmaAvr (fun j : Fin 2 => if (j : ℕ) = 0 then (0 : ℝ) else 1)
        (fun _ : Fin 1 => fun j : Fin 2 => if (j : ℕ) = 0 then (100 : ℝ) else 0)
        (fun _ : Fin 1 => (1 : ℝ)) (-(3/2)) (7/2) 2 0 ≠ some 0 := by
  have hbt0 : npBinIdxR (0 : ℝ) 1 2 (0 : ℝ) = some 0 := by
    unfold npBinIdxR
    rw [if_pos (by norm_num)]
    norm_num
  have hbt1 : npBinIdxR (0 : ℝ) 1 2 (1 : ℝ) = some 1 := by
    unfold npBinIdxR
    rw [if_pos (by norm_num)]
    norm_num
  have hbv100 : npBinIdxR (-(3/2) : ℝ) (7/2) 2 (100 : ℝ) = none := by
    unfold npBinIdxR
    rw [if_neg (by norm_num)]
  have hbv0 : npBinIdxR (-(3/2) : ℝ) (7/2) 2 (0 : ℝ) = some 0 := by
    unfold npBinIdxR
    rw [if_pos (by norm_num)]
    norm_num
  have hcell : ∀ v c : Fin 2, wmaHist (fun j : Fin 2 => if (j : ℕ) = 0 then (0 : ℝ) else 1)
      (fun _ : Fin 1 => fun j : Fin 2 => if (j : ℕ) = 0 then (100 : ℝ) else 0)
      (fun _ : Fin 1 => (1 : ℝ)) (-(3/2)) (7/2) 2 v c
      = if (v : ℕ) = 0 ∧ (c : ℕ) = 1 then 1 else 0 := by
    intro v c
    unfold wmaHist
    rw [Fin.sum_univ_one, Fin.sum_univ_two]
    norm_num [hbt0, hbt1, hbv100, hbv0]
    fin_cases v <;> fin_cases c <;> norm_num <;> simp
  have hcol : ∀ v : Fin 2, wmaHist (fun j : Fin 2 => if (j : ℕ) = 0 then (0 : ℝ) else 1)
      (fun _ : Fin 1 => fun j : Fin 2 => if (j : ℕ) = 0 then (100 : ℝ) else 0)
      (fun _ : Fin 1 => (1 : ℝ)) (-(3/2)) (7/2) 2 v 0 = 0 := by
    intro v
    rw [hcell v 0]
    norm_num
  have htot : (∑ v : Fin 2, ∑ c : Fin 2, wmaHist (fun j : Fin 2 => if (j : ℕ) = 0 then (0 : ℝ) else 1)
      (fun _ : Fin 1 => fun j : Fin 2 => if (j : ℕ) = 0 then (100 : ℝ) else 0)
      (fun _ : Fin 1 => (1 : ℝ)) (-(3/2)) (7/2) 2 v c) = 1 := by
    rw [Fin.sum_univ_two, Fin.sum_univ_two, Fin.sum_univ_two]
    rw [hcell 0 0, hcell 0 1, hcell 1 0, hcell 1 1]
    norm_num
  have hnan := wmaAvr_none_of_zero_col
    (fun j : Fin 2 => if (j : ℕ) = 0 then (0 : ℝ) else 1)
    (fun _ : Fin 1 => fun j : Fin 2 => if (j : ℕ) = 0 then (100 : ℝ) else 0)
    (fun _ : Fin 1 => (1 : ℝ)) (-(3/2)) (7/2) 2 (by norm_num) 0 hcol
  refine ⟨hcol, htot, ?_, hnan, ?_⟩
  · exact weightedModeAvr_ok_form _ _ _ _ _ _ (by norm_num) (by rw [htot]; norm_num)
  · rw [hnan]
    exact fun hc => Option.noConfusion hc

end B4F
